import Mathlib

/-!
File-backed memory card store (pcsx2/gui-libretro/MemoryCardFile.cpp)

A shallow embedding of the file-backed memory card engine: the slot address mapper
(FileMcd_ConvertToSlot and its decomposition functions) and the card image store
(FileMemoryCard: Open, Close, Seek, Create, Read, Save, EraseBlock, GetCRC),
followed by theorems about them.

Conventions of the embedding:
* u8, u32, u64 and uint values are natural numbers; where the C++ arithmetic can wrap
  (u32 additions, the uint product in Create, the u32 truncation of the file length)
  the reduction modulo 2^32 is written out.  Bitwise AND and XOR never leave the range
  of their operands, so they carry no reduction.
* Byte buffers and file contents are lists of bytes.
* The eight-element member arrays are functions on Fin 8.
* Console and OSD logging has no effect on the state and is left out.
* The host file library is not part of the engine; its file object is modelled by the
  structure wxFFile below, whose fields seekOk and wcap let a positioning call fail and a
  write call store fewer bytes than it was given.
-/

namespace MemoryCardFile

/-! Constants -/

/-- Legacy PSX card default size (source line 44): 1024 * 8 * 16 = 0x20000. -/
def MCD_SIZE : Nat := 1024 * 8 * 16

/-- Size of a single megabyte of card data (source line 46): 1024 * 528 * 2. -/
def MC2_MBSIZE : Nat := 1024 * 528 * 2

/-- The modulus of 32-bit unsigned arithmetic. -/
def U32_MOD : Nat := 2 ^ 32

/-- The value of sizeof(m_effeffs): the member is declared as u8 m_effeffs[528*16]. -/
def sizeof_effeffs : Nat := 528 * 16

/-- The erased-block pattern: the constructor fills m_effeffs with 0xff
(memset8<0xff>, source line 148) and nothing writes to it afterwards. -/
def m_effeffs : List Nat := List.replicate sizeof_effeffs 0xFF

/-- Number of u64 elements of the local array of GetCRC: u64 buffer[528*8]. -/
def crcBufferWords : Nat := 528 * 8

/-- The value of sizeof(buffer) in GetCRC, in bytes. -/
def sizeof_crcBuffer : Nat := crcBufferWords * 8

/-! Slot address mapper -/

/-- FileMcd_GetMtapPort (source lines 93-104).  The jNO_DEFAULT branch, which the source
marks as unreachable, is the result none. -/
def FileMcd_GetMtapPort (slot : Nat) : Option Nat :=
  match slot with
  | 0 | 2 | 3 | 4 => some 0
  | 1 | 5 | 6 | 7 => some 1
  | _ => none

/-- FileMcd_GetMtapSlot (source lines 108-123).  The base slots 0 and 1 raise pxFailDev and
other values reach jNO_DEFAULT; both are the result none. -/
def FileMcd_GetMtapSlot (slot : Nat) : Option Nat :=
  match slot with
  | 0 | 1 => none
  | 2 | 3 | 4 => some (slot - 1)
  | 5 | 6 | 7 => some (slot - 4)
  | _ => none

/-- FileMcd_IsMultitapSlot (source lines 125-128). -/
def FileMcd_IsMultitapSlot (slot : Nat) : Bool := decide (slot > 1)

/-- FileMcd_ConvertToSlot (source lines 446-451), on uint operands: the additions wrap
modulo 2^32. -/
def FileMcd_ConvertToSlot (port slot : Nat) : Nat :=
  if slot = 0 then port
  else if port = 0 then (slot + 1) % U32_MOD
  else (slot + 4) % U32_MOD

/-! Byte buffers -/

/-- The effect of a read of the bytes got into a buffer: the first got.length bytes of the
buffer are replaced, the rest keeps its previous content. -/
def overlay (got buf : List Nat) : List Nat := got ++ buf.drop got.length

/-- The effect of memset(dest, 0, size). -/
def memsetZero (dest : List Nat) (size : Nat) : List Nat :=
  List.replicate size 0 ++ dest.drop size

/-- The loop of source line 339: for i < size, buf[i] = src[i]. -/
def copyInto : List Nat → List Nat → Nat → List Nat
  | _ :: bs, s :: ss, n + 1 => s :: copyInto bs ss n
  | bs, _, _ => bs

/-- The loop of source lines 348-353: for i < size, buf[i] &= src[i]. -/
def andInto : List Nat → List Nat → Nat → List Nat
  | b :: bs, s :: ss, n + 1 => (b &&& s) :: andInto bs ss n
  | bs, _, _ => bs

/-- The value of up to eight consecutive bytes read as one little-endian integer. -/
def le64 (bs : List Nat) : Nat := bs.foldr (fun b acc => b + 256 * acc) 0

/-- Element i of a byte buffer reinterpreted as an array of u64 (pdata[i], buffer[t]). -/
def wordAt (buf : List Nat) (i : Nat) : Nat := le64 ((buf.drop (8 * i)).take 8)

/-- The loops of source lines 363-364 and 421-422: acc ^= pdata[i] for i = 0 .. loops-1. -/
def xorWords (buf : List Nat) (loops : Nat) (acc : Nat) : Nat :=
  (List.range loops).foldl (fun a i => a ^^^ wordAt buf i) acc

/-- Modelled from the spec: SafeArray<u8>::MakeRoomFor of Utilities/SafeArray.inl, which is
not part of the sources at hand.  The scratch buffer is "sized on demand to the largest
request seen so far" and is "grow-on-demand, never shrink": a buffer that is already large
enough is kept as it is, a smaller one is extended to the requested size, keeping its
content.  The bytes gained by growing are taken to be zero. -/
def MakeRoomFor (buf : List Nat) (size : Nat) : List Nat :=
  if buf.length < size then buf ++ List.replicate (size - buf.length) 0 else buf

/-! The host file object -/

/-- The state of one wxFFile object of the host library, as far as the card engine observes
it: whether it is opened, the content of the file, the file position, and two properties of
the host that decide how its calls end: whether positioning succeeds, and how many bytes a
single write call is able to store (a healthy host stores every byte it is given). -/
structure wxFFile where
  opened : Bool
  data : List Nat
  pos : Nat
  seekOk : Bool
  wcap : Nat
deriving DecidableEq, Repr

namespace wxFFile

/-- The call IsOpened() of wxFFile. -/
def IsOpened (f : wxFFile) : Bool := f.opened

/-- The call Length() of wxFFile. -/
def Length (f : wxFFile) : Nat := f.data.length

/-- The call Seek(ofs) of wxFFile: on success the position is ofs, also beyond the end of
the file; on failure the object is unchanged. -/
def Seek (f : wxFFile) (ofs : Nat) : Bool × wxFFile :=
  if f.opened && f.seekOk then (true, { f with pos := ofs }) else (false, f)

/-- The call Read(buf, n) of wxFFile: the bytes obtained (at most n, fewer at the end of the
file) and the object with its position advanced.  The count returned by the call is the
length of the bytes obtained. -/
def Read (f : wxFFile) (n : Nat) : List Nat × wxFFile :=
  if f.opened then
    ((f.data.drop f.pos).take n, { f with pos := f.pos + ((f.data.drop f.pos).take n).length })
  else ([], f)

/-- The file content after storing chunk at position pos.  Storing no byte leaves the file
as it is, also when pos lies beyond its end; when at least one byte is stored, a gap
between the end of the file and pos reads as zero bytes. -/
def writeAt (data : List Nat) (pos : Nat) : List Nat → List Nat
  | [] => data
  | c :: cs =>
    (data ++ List.replicate (pos - data.length) 0).take pos ++ (c :: cs)
      ++ data.drop (pos + (c :: cs).length)

/-- The call Write(buf, n) of wxFFile: the number of bytes stored and the object afterwards.
The host stores min n wcap bytes. -/
def Write (f : wxFFile) (buf : List Nat) (n : Nat) : Nat × wxFFile :=
  if f.opened then
    (min n f.wcap,
      { f with data := writeAt f.data f.pos (buf.take (min n f.wcap)),
               pos := f.pos + min n f.wcap })
  else (0, f)

/-- The object made by the declaration wxFFile fp(mcdFile, "wb"): when the host opens the
file it is empty and positioned at its start. -/
def openWB (canOpen : Bool) (wcap : Nat) : wxFFile :=
  { opened := canOpen, data := [], pos := 0, seekOk := true, wcap := wcap }

/-- The call Close() of wxFFile: the object is no longer opened; data stays the content of
the backing file. -/
def Close (f : wxFFile) : wxFFile := { f with opened := false }

end wxFFile

/-! The card image store -/

/-- The data members of class FileMemoryCard (source lines 56-61); m_effeffs is the constant
above. -/
structure FileMemoryCard where
  m_file : Fin 8 → wxFFile
  m_currentdata : List Nat
  m_chksum : Fin 8 → Nat
  m_ispsx : Fin 8 → Bool
  m_chkaddr : Nat

namespace FileMemoryCard

/-- The local variable offset of Seek (source lines 250-265), from the file length. -/
def seekOffset (length : Nat) : Nat :=
  let size := length % U32_MOD
  if size = MCD_SIZE + 64 then 64
  else if size = MCD_SIZE + 3904 then 3904
  else 0

/-- The argument adr + offset of the final call of Seek (source line 267), a u32 sum. -/
def seekTarget (length adr : Nat) : Nat := (adr + seekOffset length) % U32_MOD

/-- FileMemoryCard::Seek (source lines 248-268). -/
def Seek (f : wxFFile) (adr : Nat) : Bool × wxFFile :=
  f.Seek (seekTarget f.Length adr)

/-- The loop of FileMemoryCard::Create (source lines 280-284), count iterations to go. -/
def createLoop : Nat → wxFFile → Bool × wxFFile
  | 0, fp => (true, fp)
  | n + 1, fp =>
    if (fp.Write m_effeffs sizeof_effeffs).1 = 0 then (false, (fp.Write m_effeffs sizeof_effeffs).2)
    else createLoop n (fp.Write m_effeffs sizeof_effeffs).2

/-- The number of iterations of the loop of Create: (MC2_MBSIZE*sizeInMB)/sizeof(m_effeffs),
where the product is a 32-bit unsigned product. -/
def createChunks (sizeInMB : Nat) : Nat := ((MC2_MBSIZE * sizeInMB) % U32_MOD) / sizeof_effeffs

/-- FileMemoryCard::Create (source lines 271-286): the return value and the file object
fp when the function returns.  The arguments canOpen and wcap say how the host answers. -/
def Create (canOpen : Bool) (wcap : Nat) (sizeInMB : Nat) : Bool × wxFFile :=
  if !(wxFFile.openWB canOpen wcap).IsOpened then (false, wxFFile.openWB canOpen wcap)
  else createLoop (createChunks sizeInMB) (wxFFile.openWB canOpen wcap)

/-- FileMemoryCard::Read (source lines 313-324): the return value, the destination buffer
afterwards and the state afterwards. -/
def Read (mc : FileMemoryCard) (slot : Fin 8) (dest : List Nat) (adr size : Nat) :
    Int × List Nat × FileMemoryCard :=
  if !(mc.m_file slot).IsOpened then (1, memsetZero dest size, mc)
  else if !(Seek (mc.m_file slot) adr).1 then (0, dest, mc)
  else
    (if (((Seek (mc.m_file slot) adr).2.Read size).1.length ≠ 0) then 1 else 0,
     overlay ((Seek (mc.m_file slot) adr).2.Read size).1 dest,
     { mc with m_file := Function.update mc.m_file slot ((Seek (mc.m_file slot) adr).2.Read size).2 })

/-- The end of FileMemoryCard::Save (source lines 368-385): the second Seek, the write of the
scratch buffer and the return value derived from the write status. -/
def SaveWriteBack (mc : FileMemoryCard) (slot : Fin 8) (adr size : Nat) : Int × FileMemoryCard :=
  if !(Seek (mc.m_file slot) adr).1 then (0, mc)
  else
    (if ((Seek (mc.m_file slot) adr).2.Write mc.m_currentdata size).1 ≠ 0 then 1 else 0,
     { mc with m_file := Function.update mc.m_file slot
                 ((Seek (mc.m_file slot) adr).2.Write mc.m_currentdata size).2 })

/-- FileMemoryCard::Save (source lines 326-386): the return value and the state afterwards. -/
def Save (mc : FileMemoryCard) (slot : Fin 8) (src : List Nat) (adr size : Nat) :
    Int × FileMemoryCard :=
  if !(mc.m_file slot).IsOpened then (1, mc)
  else if mc.m_ispsx slot then
    SaveWriteBack
      { mc with m_currentdata := copyInto (MakeRoomFor mc.m_currentdata size) src size }
      slot adr size
  else if !(Seek (mc.m_file slot) adr).1 then (0, mc)
  else
    SaveWriteBack
      { mc with
          m_file := Function.update mc.m_file slot ((Seek (mc.m_file slot) adr).2.Read size).2,
          m_currentdata :=
            andInto (overlay ((Seek (mc.m_file slot) adr).2.Read size).1
              (MakeRoomFor mc.m_currentdata size)) src size,
          m_chksum := Function.update mc.m_chksum slot
            (xorWords
              (andInto (overlay ((Seek (mc.m_file slot) adr).2.Read size).1
                (MakeRoomFor mc.m_currentdata size)) src size)
              (size / 8) (mc.m_chksum slot)) }
      slot adr size

/-- FileMemoryCard::EraseBlock (source lines 388-400). -/
def EraseBlock (mc : FileMemoryCard) (slot : Fin 8) (adr : Nat) : Int × FileMemoryCard :=
  if !(mc.m_file slot).IsOpened then (1, mc)
  else if !(Seek (mc.m_file slot) adr).1 then (0, mc)
  else
    (if ((Seek (mc.m_file slot) adr).2.Write m_effeffs sizeof_effeffs).1 ≠ 0 then 1 else 0,
     { mc with m_file := Function.update mc.m_file slot
                 ((Seek (mc.m_file slot) adr).2.Write m_effeffs sizeof_effeffs).2 })

/-- One iteration of the loop of FileMemoryCard::GetCRC (source lines 420-422) on the triple
(retval, file, buffer), for a local buffer of words elements of type u64: sizeof(buffer),
that is words * 8, bytes are read into buffer and every word of buffer is folded into
retval. -/
def crcStep (words : Nat) (s : Nat × wxFFile × List Nat) : Nat × wxFFile × List Nat :=
  (xorWords (overlay (s.2.1.Read (words * 8)).1 s.2.2) words s.1,
   (s.2.1.Read (words * 8)).2,
   overlay (s.2.1.Read (words * 8)).1 s.2.2)

/-- The loop of FileMemoryCard::GetCRC (source lines 418-423), i iterations to go. -/
def crcLoop (words : Nat) : Nat → Nat × wxFFile × List Nat → Nat × wxFFile × List Nat
  | 0, s => s
  | i + 1, s => crcLoop words i (crcStep words s)

/-- FileMemoryCard::GetCRC (source lines 402-431): the return value and the state afterwards.
The local buffer, which the source leaves uninitialised, starts as zero bytes. -/
def GetCRC (mc : FileMemoryCard) (slot : Fin 8) : Nat × FileMemoryCard :=
  if !(mc.m_file slot).IsOpened then (0, mc)
  else if mc.m_ispsx slot then
    if !(Seek (mc.m_file slot) 0).1 then (0, mc)
    else
      ((crcLoop crcBufferWords (((mc.m_file slot).Length / sizeof_crcBuffer) % U32_MOD)
          (0, (Seek (mc.m_file slot) 0).2, List.replicate sizeof_crcBuffer 0)).1,
       { mc with m_file := Function.update mc.m_file slot
                   (crcLoop crcBufferWords
                     (((mc.m_file slot).Length / sizeof_crcBuffer) % U32_MOD)
                     (0, (Seek (mc.m_file slot) 0).2, List.replicate sizeof_crcBuffer 0)).2.1 })
  else (mc.m_chksum slot, mc)

/-- The eight bytes of a u64 in memory, least significant first. -/
def bytesOfU64 (v : Nat) : List Nat := (List.range 8).map (fun i => v / 256 ^ i % 256)

/-- The part of FileMemoryCard::Open that follows the call m_file[slot].Open (source lines
211-229), for one slot; f is the file object that call leaves behind.  When the file is
opened the format flag is set from the file length, m_chkaddr becomes 0x210 and, on a
standard-format card whose positioning at m_chkaddr succeeds, up to eight bytes are read
over the bytes of m_chksum[slot]. -/
def OpenSlot (mc : FileMemoryCard) (slot : Fin 8) (f : wxFFile) : FileMemoryCard :=
  if !f.IsOpened then { mc with m_file := Function.update mc.m_file slot f }
  else if !(decide (f.Length = 0x20000)) && (f.Seek 0x210).1 then
    { mc with
        m_file := Function.update mc.m_file slot ((f.Seek 0x210).2.Read 8).2,
        m_ispsx := Function.update mc.m_ispsx slot (decide (f.Length = 0x20000)),
        m_chkaddr := 0x210,
        m_chksum := Function.update mc.m_chksum slot
          (le64 (overlay ((f.Seek 0x210).2.Read 8).1 (bytesOfU64 (mc.m_chksum slot)))) }
  else
    { mc with
        m_file := Function.update mc.m_file slot f,
        m_ispsx := Function.update mc.m_ispsx slot (decide (f.Length = 0x20000)),
        m_chkaddr := 0x210 }

/-- The slots in the order in which the loops of Open and Close visit them
(for slot = 0; slot < 8; ++slot). -/
def allSlots : List (Fin 8) := [0, 1, 2, 3, 4, 5, 6, 7]

/-- One iteration of the loop of FileMemoryCard::Open (source lines 154-230).  The part of
the iteration that precedes the call m_file[slot].Open works on the configuration and on
the file system of the host (multitap and slot settings, the file name, the creation of a
missing card file) and is summed up by host: host slot is none when the iteration ends at
one of its continue statements, and is some f when it reaches the call m_file[slot].Open,
f being the file object that call leaves behind. -/
def OpenStep (host : Fin 8 → Option wxFFile) (mc : FileMemoryCard) (slot : Fin 8) :
    FileMemoryCard :=
  match host slot with
  | none => mc
  | some f => OpenSlot mc slot f

/-- FileMemoryCard::Open (source lines 152-231). -/
def Open (mc : FileMemoryCard) (host : Fin 8 → Option wxFFile) : FileMemoryCard :=
  allSlots.foldl (OpenStep host) mc

/-- One iteration of the loop of FileMemoryCard::Close (source lines 237-243): on an opened
slot of a standard-format card whose positioning at m_chkaddr succeeds, the eight bytes of
m_chksum[slot] are written there; then the file is closed. -/
def CloseSlot (mc : FileMemoryCard) (slot : Fin 8) : FileMemoryCard :=
  if (mc.m_file slot).IsOpened then
    if !(mc.m_ispsx slot) && ((mc.m_file slot).Seek mc.m_chkaddr).1 then
      { mc with m_file := Function.update mc.m_file slot
                  ((((mc.m_file slot).Seek mc.m_chkaddr).2.Write
                    (bytesOfU64 (mc.m_chksum slot)) 8).2.Close) }
    else
      { mc with m_file := Function.update mc.m_file slot (mc.m_file slot).Close }
  else mc

/-- FileMemoryCard::Close (source lines 233-245). -/
def Close (mc : FileMemoryCard) : FileMemoryCard :=
  allSlots.foldl CloseSlot mc

end FileMemoryCard

/-! Sequences of Save calls and the checksum they accumulate -/

/-- Successive calls of Save on one slot; each element of the list is the source buffer
and the address of one call, the size of the call being the length of its buffer. -/
def SaveAll (mc : FileMemoryCard) (slot : Fin 8) : List (List Nat × Nat) → FileMemoryCard
  | [] => mc
  | w :: ws => SaveAll (mc.Save slot w.1 w.2 w.1.length).2 slot ws

/-- The post-merge buffer of a write as the specification words it: existing AND src,
byte by byte. -/
def mergedBuffer (existing src : List Nat) : List Nat :=
  List.zipWith (fun a b => a &&& b) existing src

/-- The XOR of the 64-bit words of a buffer of size bytes: its first floor(size/8) words. -/
def foldWords (buf : List Nat) : Nat := xorWords buf (buf.length / 8) 0

/-- The bytes a file holds in the region of size bytes that a call with address adr
targets. -/
def regionOf (f : wxFFile) (adr size : Nat) : List Nat :=
  (f.data.drop (FileMemoryCard.seekTarget f.Length adr)).take size

/-- The XOR of every word of every post-merge buffer written by the calls ws, made in this
order from the state mc: for each call the existing bytes are those the file holds in the
targeted region when the call is made. -/
def writtenWordsXor (mc : FileMemoryCard) (slot : Fin 8) : List (List Nat × Nat) → Nat
  | [] => 0
  | w :: ws =>
    foldWords (mergedBuffer (regionOf (mc.m_file slot) w.2 w.1.length) w.1) ^^^
      writtenWordsXor (mc.Save slot w.1 w.2 w.1.length).2 slot ws

/-- Two calls target regions of a file of the given length that do not overlap. -/
def regionsDisjoint (length : Nat) (a b : List Nat × Nat) : Prop :=
  FileMemoryCard.seekTarget length a.2 + a.1.length ≤ FileMemoryCard.seekTarget length b.2 ∨
  FileMemoryCard.seekTarget length b.2 + b.1.length ≤ FileMemoryCard.seekTarget length a.2

instance (length : Nat) (a b : List Nat × Nat) : Decidable (regionsDisjoint length a b) := by
  unfold regionsDisjoint
  exact inferInstance

/-- The conditions under which every Save of a sequence on a slot is a successful in-range
call: the slot is opened, its seeks succeed, it is standard-format, its file has length L
and its host stores up to W bytes per write. -/
structure SlotReady (mc : FileMemoryCard) (slot : Fin 8) (L W : Nat) : Prop where
  opened : (mc.m_file slot).opened = true
  seekOk : (mc.m_file slot).seekOk = true
  std : mc.m_ispsx slot = false
  len : (mc.m_file slot).data.length = L
  wcap : (mc.m_file slot).wcap = W

/-! Open followed by Close -/

/-- The state of a slot is one in which Close leaves the content D of the backing file as
it is: the file of the slot holds D and, whenever Close is going to write to it (the slot
is opened and standard-format and its positioning succeeds), m_chkaddr is 0x210, the file
has at least 0x218 bytes, and the eight bytes of m_chksum[slot] are the eight bytes that D
holds at 0x210. -/
def CloseKeeps (mc : FileMemoryCard) (slot : Fin 8) (D : List Nat) : Prop :=
  (mc.m_file slot).data = D ∧
  ((mc.m_file slot).opened = true → mc.m_ispsx slot = false →
    (mc.m_file slot).seekOk = true →
      mc.m_chkaddr = 0x210 ∧ 0x218 ≤ D.length ∧
      FileMemoryCard.bytesOfU64 (mc.m_chksum slot) = (D.drop 0x210).take 8)

/-! Concrete inputs -/

/-- A file object that is not opened. -/
def closedFile : wxFFile :=
  { opened := false, data := [], pos := 0, seekOk := true, wcap := 0 }

/-- An opened file object with the given content, on a host whose positioning succeeds and
whose write calls store up to wcap bytes. -/
def hostFile (data : List Nat) (wcap : Nat) : wxFFile :=
  { opened := true, data := data, pos := 0, seekOk := true, wcap := wcap }

/-- The card store as the constructor leaves it (source lines 146-150), with the members
the constructor does not set taken as zero: every slot closed, m_chkaddr 0. -/
def newCard : FileMemoryCard :=
  { m_file := fun _ => closedFile,
    m_currentdata := [],
    m_chksum := fun _ => 0,
    m_ispsx := fun _ => false,
    m_chkaddr := 0 }

/-- A card store after Open in which slot 0 holds the file f with format flag psx and
checksum chk, every other slot is closed, and the scratch buffer holds scratch. -/
def singleCard (f : wxFFile) (psx : Bool) (chk : Nat) (scratch : List Nat) : FileMemoryCard :=
  { m_file := fun s => if s = 0 then f else closedFile,
    m_currentdata := scratch,
    m_chksum := fun s => if s = 0 then chk else 0,
    m_ispsx := fun s => if s = 0 then psx else false,
    m_chkaddr := 0x210 }

/-- A legacy card image of 0x20000 bytes: every byte is zero except the last one, which
is 1. -/
def legacyTailImage : List Nat := List.replicate 0x1FFF8 0 ++ [0, 0, 0, 0, 0, 0, 0, 1]

/-- A legacy-format card as Open leaves it: slot 0 holds an image of 0x20000 bytes, each of
them 0x0F. -/
def legacyCard : FileMemoryCard :=
  FileMemoryCard.OpenSlot newCard 0 (hostFile (List.replicate 0x20000 0x0F) 4096)

/-- A standard-format card whose file has the length 0x20000 + 64 of an image with a header
of 64 bytes, each byte being 0x0F. -/
def headerCard : FileMemoryCard :=
  singleCard (hostFile (List.replicate (0x20000 + 64) 0x0F) 64) false 0 []

/-- A standard-format card whose file has 2^32 + 0x20000 + 64 bytes, each of them 0xFF. -/
def wrapCard : FileMemoryCard :=
  singleCard (hostFile (List.replicate (2 ^ 32 + 0x20000 + 64) 0xFF) 64) false 0 []

/-- The answer of the host to Open for a session with two cards: slot 0 holds a card file
that was cut short to four bytes, slot 1 a card file of eight bytes, and the multitap slots
are not in use. -/
def truncatedHost : Fin 8 → Option wxFFile :=
  fun s =>
    if s = 0 then some (hostFile [0xFF, 0xFF, 0xFF, 0xFF] 64)
    else if s = 1 then some (hostFile (List.replicate 8 0xFF) 64)
    else none

/-- The card store after Open of the session with the two cards above. -/
def truncatedCard : FileMemoryCard := FileMemoryCard.Open newCard truncatedHost

/-- First history: after Open, eight bytes are saved to the card in slot 1. -/
def historyA : FileMemoryCard :=
  (truncatedCard.Save 1 [0x01, 0x02, 0x03, 0x04, 0x05, 0x06, 0x07, 0x08] 0 8).2

/-- Second history: after Open, eight other bytes are saved to the card in slot 1. -/
def historyB : FileMemoryCard :=
  (truncatedCard.Save 1 [0x11, 0x22, 0x33, 0x44, 0x55, 0x66, 0x77, 0x88] 0 8).2

/-- The answer of the host to Open for a session with one standard-format card of 0x218
bytes in slot 2. -/
def roundTripHost : Fin 8 → Option wxFFile :=
  fun s => if s = 2 then some (hostFile (List.replicate 0x218 0xAB) 8) else none

/-- A standard-format card of 32 erased bytes in slot 0, with initial checksum 5. -/
def sampleCard : FileMemoryCard := singleCard (hostFile (List.replicate 32 0xFF) 64) false 5 []

/-- Two Save calls of 8 bytes each on disjoint regions of the sample card. -/
def sampleWrites : List (List Nat × Nat) :=
  [([1, 2, 3, 4, 5, 6, 7, 8], 0), ([0x10, 0x20, 0x30, 0x40, 0x50, 0x60, 0x70, 0x80], 16)]

/-! Auxiliary facts about buffers and single calls -/

open FileMemoryCard

theorem Seek_ok (f : wxFFile) (adr : Nat) (ho : f.opened = true) (hs : f.seekOk = true) :
    Seek f adr = (true, { f with pos := seekTarget f.Length adr }) := by
  simp [Seek, wxFFile.Seek, ho, hs]

theorem Save_std_ok (mc : FileMemoryCard) (slot : Fin 8) (src : List Nat) (adr size : Nat)
    (ho : (mc.m_file slot).opened = true) (hs : (mc.m_file slot).seekOk = true)
    (hpsx : mc.m_ispsx slot = false) :
    mc.Save slot src adr size =
      (if min size (mc.m_file slot).wcap ≠ 0 then 1 else 0,
       { mc with
          m_file := Function.update mc.m_file slot
            { mc.m_file slot with
                data := wxFFile.writeAt (mc.m_file slot).data
                  (seekTarget (mc.m_file slot).Length adr)
                  ((andInto (overlay (((mc.m_file slot).data.drop
                      (seekTarget (mc.m_file slot).Length adr)).take size)
                      (MakeRoomFor mc.m_currentdata size)) src size).take
                    (min size (mc.m_file slot).wcap)),
                pos := seekTarget (mc.m_file slot).Length adr + min size (mc.m_file slot).wcap },
          m_currentdata := andInto (overlay (((mc.m_file slot).data.drop
                      (seekTarget (mc.m_file slot).Length adr)).take size)
                      (MakeRoomFor mc.m_currentdata size)) src size,
          m_chksum := Function.update mc.m_chksum slot
            (xorWords (andInto (overlay (((mc.m_file slot).data.drop
                      (seekTarget (mc.m_file slot).Length adr)).take size)
                      (MakeRoomFor mc.m_currentdata size)) src size) (size / 8)
              (mc.m_chksum slot)) }) := by
  simp [Save, SaveWriteBack, Seek_ok, wxFFile.Read, wxFFile.Write, wxFFile.IsOpened, wxFFile.Length,
    ho, hs, hpsx]

theorem andInto_append (got src rest : List Nat) (n : Nat)
    (hg : got.length = n) (hsrc : src.length = n) :
    andInto (got ++ rest) src n = List.zipWith (fun a b => a &&& b) got src ++ rest := by
  induction got generalizing src n with
  | nil =>
    simp at hg
    subst hg
    cases src <;> cases rest <;> simp_all [andInto]
  | cons g gs ih =>
    cases n with
    | zero => simp at hg
    | succ n =>
      cases src with
      | nil => simp at hsrc
      | cons s ss =>
        simp only [List.length_cons, Nat.add_right_cancel_iff] at hg hsrc
        simp [andInto, ih ss n hg hsrc]

theorem copyInto_eq (buf src : List Nat) (n : Nat)
    (hb : n ≤ buf.length) (hsrc : src.length = n) :
    copyInto buf src n = src ++ buf.drop n := by
  induction buf generalizing src n with
  | nil =>
    simp at hb
    subst hb
    cases src <;> simp_all [copyInto]
  | cons b bs ih =>
    cases n with
    | zero =>
      cases src <;> simp_all [copyInto]
    | succ n =>
      cases src with
      | nil => simp at hsrc
      | cons s ss =>
        simp only [List.length_cons, Nat.add_right_cancel_iff, Nat.add_le_add_iff_right] at hb hsrc
        simp [copyInto, ih ss n hb hsrc]

theorem MakeRoomFor_length (buf : List Nat) (size : Nat) : size ≤ (MakeRoomFor buf size).length := by
  unfold MakeRoomFor
  split_ifs with h
  · simp; omega
  · omega

theorem region_length (data : List Nat) (p n : Nat) (h : p + n ≤ data.length) :
    ((data.drop p).take n).length = n := by
  simp; omega

theorem writeAt_inrange (data chunk : List Nat) (p : Nat) (h : p + chunk.length ≤ data.length) :
    wxFFile.writeAt data p chunk = data.take p ++ chunk ++ data.drop (p + chunk.length) := by
  cases chunk with
  | nil =>
    rw [wxFFile.writeAt, List.append_nil, List.length_nil, Nat.add_zero, List.take_append_drop]
  | cons c cs =>
    have : p - data.length = 0 := by omega
    rw [wxFFile.writeAt, this, List.replicate_zero, List.append_nil]

theorem writeAt_length (data chunk : List Nat) (p : Nat) (h : p + chunk.length ≤ data.length) :
    (wxFFile.writeAt data p chunk).length = data.length := by
  rw [writeAt_inrange data chunk p h]
  simp; omega

theorem region_writeAt (data chunk : List Nat) (p : Nat) (h : p + chunk.length ≤ data.length) :
    ((wxFFile.writeAt data p chunk).drop p).take chunk.length = chunk := by
  rw [writeAt_inrange data chunk p h]
  have hl : (data.take p).length = p := by simp; omega
  rw [List.append_assoc, List.drop_append_of_le_length (by omega)]
  simp [List.drop_eq_nil_of_le, hl]

theorem Save_psx_ok (mc : FileMemoryCard) (slot : Fin 8) (src : List Nat) (adr size : Nat)
    (ho : (mc.m_file slot).opened = true) (hs : (mc.m_file slot).seekOk = true)
    (hpsx : mc.m_ispsx slot = true) :
    mc.Save slot src adr size =
      (if min size (mc.m_file slot).wcap ≠ 0 then 1 else 0,
       { mc with
          m_file := Function.update mc.m_file slot
            { mc.m_file slot with
                data := wxFFile.writeAt (mc.m_file slot).data
                  (seekTarget (mc.m_file slot).Length adr)
                  ((copyInto (MakeRoomFor mc.m_currentdata size) src size).take
                    (min size (mc.m_file slot).wcap)),
                pos := seekTarget (mc.m_file slot).Length adr + min size (mc.m_file slot).wcap },
          m_currentdata := copyInto (MakeRoomFor mc.m_currentdata size) src size }) := by
  simp [Save, SaveWriteBack, Seek_ok, wxFFile.Write, wxFFile.IsOpened, wxFFile.Length,
    ho, hs, hpsx]

/-- The scratch buffer of a standard-format Save whose region lies inside the file. -/
theorem scratch_std_inrange (data cur src : List Nat) (p size : Nat)
    (hsrc : src.length = size) (hin : p + size ≤ data.length) :
    andInto (overlay ((data.drop p).take size) (MakeRoomFor cur size)) src size =
      List.zipWith (fun a b => a &&& b) ((data.drop p).take size) src ++
        (MakeRoomFor cur size).drop size := by
  unfold overlay
  rw [region_length data p size hin]
  exact andInto_append _ _ _ _ (region_length data p size hin) hsrc

theorem zipWith_and_length (a b : List Nat) (n : Nat) (ha : a.length = n) (hb : b.length = n) :
    (List.zipWith (fun a b => a &&& b) a b).length = n := by
  simp [ha, hb]

theorem EraseBlock_ok (mc : FileMemoryCard) (slot : Fin 8) (adr : Nat)
    (ho : (mc.m_file slot).opened = true) (hs : (mc.m_file slot).seekOk = true) :
    mc.EraseBlock slot adr =
      (if min sizeof_effeffs (mc.m_file slot).wcap ≠ 0 then 1 else 0,
       { mc with
          m_file := Function.update mc.m_file slot
            { mc.m_file slot with
                data := wxFFile.writeAt (mc.m_file slot).data
                  (seekTarget (mc.m_file slot).Length adr)
                  (m_effeffs.take (min sizeof_effeffs (mc.m_file slot).wcap)),
                pos := seekTarget (mc.m_file slot).Length adr
                  + min sizeof_effeffs (mc.m_file slot).wcap } }) := by
  simp [EraseBlock, Seek_ok, wxFFile.Write, wxFFile.IsOpened, wxFFile.Length, ho, hs]

theorem Read_ok (mc : FileMemoryCard) (slot : Fin 8) (dest : List Nat) (adr size : Nat)
    (ho : (mc.m_file slot).opened = true) (hs : (mc.m_file slot).seekOk = true) :
    mc.Read slot dest adr size =
      (if (((mc.m_file slot).data.drop (seekTarget (mc.m_file slot).Length adr)).take size).length
            ≠ 0 then 1 else 0,
       overlay (((mc.m_file slot).data.drop (seekTarget (mc.m_file slot).Length adr)).take size)
         dest,
       { mc with
          m_file := Function.update mc.m_file slot
            { mc.m_file slot with
                pos := seekTarget (mc.m_file slot).Length adr +
                  (((mc.m_file slot).data.drop
                    (seekTarget (mc.m_file slot).Length adr)).take size).length } }) := by
  simp [Read, Seek_ok, wxFFile.Read, wxFFile.IsOpened, wxFFile.Length, ho, hs]

theorem m_effeffs_length : m_effeffs.length = sizeof_effeffs := by
  simp [m_effeffs]

theorem Seek_hostFile_pos (data : List Nat) (wcap adr : Nat) :
    (Seek (hostFile data wcap) adr).2.pos = seekTarget data.length adr := by
  simp [Seek, wxFFile.Seek, hostFile, wxFFile.Length]

/-! Auxiliary facts about word folds -/

theorem wordAt_add (buf : List Nat) (a i : Nat) :
    wordAt buf (a + i) = wordAt (buf.drop (8 * a)) i := by
  unfold wordAt
  rw [List.drop_drop]
  congr 3
  ring

theorem xorWords_add (buf : List Nat) (a b acc : Nat) :
    xorWords buf (a + b) acc = xorWords (buf.drop (8 * a)) b (xorWords buf a acc) := by
  unfold xorWords
  rw [List.range_add, List.foldl_append, List.foldl_map]
  simp only [wordAt_add]

theorem xorWords_congr (buf1 buf2 : List Nat) (n acc : Nat)
    (h : ∀ i, i < n → wordAt buf1 i = wordAt buf2 i) :
    xorWords buf1 n acc = xorWords buf2 n acc := by
  induction n generalizing acc with
  | zero => simp [xorWords]
  | succ n ih =>
    unfold xorWords at ih ⊢
    rw [List.range_succ, List.foldl_append, List.foldl_append]
    rw [ih acc (fun i hi => h i (Nat.lt_succ_of_lt hi))]
    simp [h n (Nat.lt_succ_self n)]

theorem wordAt_append_left (a b : List Nat) (i : Nat) (h : 8 * i + 8 ≤ a.length) :
    wordAt (a ++ b) i = wordAt a i := by
  unfold wordAt
  rw [List.drop_append_of_le_length (by omega), List.take_append_of_le_length (by simp; omega)]

theorem xorWords_append_left (a b : List Nat) (n acc : Nat) (h : 8 * n ≤ a.length) :
    xorWords (a ++ b) n acc = xorWords a n acc :=
  xorWords_congr _ _ _ _ (fun i hi => wordAt_append_left a b i (by omega))

theorem xorWords_take (buf : List Nat) (n m acc : Nat) (h : 8 * n ≤ m) :
    xorWords (buf.take m) n acc = xorWords buf n acc := by
  by_cases hm : m ≤ buf.length
  · conv_rhs => rw [← List.take_append_drop m buf]
    exact (xorWords_append_left _ _ _ _ (by simp; omega)).symm
  · rw [List.take_of_length_le (by omega)]

theorem le64_replicate_zero (k : Nat) : le64 (List.replicate k 0) = 0 := by
  induction k with
  | zero => rfl
  | succ k ih =>
    rw [List.replicate_succ]
    unfold le64 at ih ⊢
    rw [List.foldr_cons, ih]

theorem wordAt_replicate_zero (m i : Nat) : wordAt (List.replicate m 0) i = 0 := by
  unfold wordAt
  rw [List.drop_replicate, List.take_replicate]
  exact le64_replicate_zero _

theorem xorWords_replicate_zero (m n acc : Nat) : xorWords (List.replicate m 0) n acc = acc := by
  induction n with
  | zero => simp [xorWords]
  | succ n ih =>
    unfold xorWords at ih ⊢
    rw [List.range_succ, List.foldl_append, ih]
    simp [wordAt_replicate_zero]

/-! Auxiliary facts about GetCRC and Open -/

theorem crcStep_full (words : Nat) (f : wxFFile) (buf : List Nat) (acc : Nat)
    (ho : f.opened = true) (hb : buf.length = words * 8)
    (hin : f.pos + words * 8 ≤ f.data.length) :
    crcStep words (acc, f, buf) =
      (xorWords (f.data.drop f.pos) words acc,
        { f with pos := f.pos + words * 8 },
        (f.data.drop f.pos).take (words * 8)) := by
  have hgot : ((f.data.drop f.pos).take (words * 8)).length = words * 8 :=
    region_length _ _ _ hin
  have hread : f.Read (words * 8) =
      ((f.data.drop f.pos).take (words * 8), { f with pos := f.pos + words * 8 }) := by
    simp only [wxFFile.Read, ho, if_true, hgot]
  have hov : overlay ((f.data.drop f.pos).take (words * 8)) buf
      = (f.data.drop f.pos).take (words * 8) := by
    have hd : buf.drop (words * 8) = [] := List.drop_eq_nil_of_le (by omega)
    unfold overlay
    rw [hgot, hd, List.append_nil]
  simp only [crcStep, hread, hov, xorWords_take _ _ _ _ (show 8 * words ≤ words * 8 by omega)]

theorem crcLoop_fst (words n : Nat) (f : wxFFile) (buf : List Nat) (acc : Nat)
    (ho : f.opened = true) (hb : buf.length = words * 8)
    (hin : f.pos + n * (words * 8) ≤ f.data.length) :
    (crcLoop words n (acc, f, buf)).1 = xorWords (f.data.drop f.pos) (n * words) acc := by
  induction n generalizing f buf acc with
  | zero => simp [crcLoop, xorWords]
  | succ n ih =>
    rw [Nat.succ_mul] at hin
    have hin1 : f.pos + words * 8 ≤ f.data.length := by omega
    rw [crcLoop, crcStep_full words f buf acc ho hb hin1]
    rw [ih { f with pos := f.pos + words * 8 } _ _ ho (region_length _ _ _ hin1) (by
      show f.pos + words * 8 + n * (words * 8) ≤ f.data.length
      omega)]
    show xorWords (f.data.drop (f.pos + words * 8)) (n * words)
        (xorWords (f.data.drop f.pos) words acc) = _
    have : (n + 1) * words = words + n * words := by ring
    rw [this, xorWords_add, List.drop_drop]
    have h8 : 8 * words = words * 8 := by omega
    rw [h8]

theorem GetCRC_legacy (mc : FileMemoryCard) (slot : Fin 8)
    (ho : (mc.m_file slot).opened = true) (hs : (mc.m_file slot).seekOk = true)
    (hpsx : mc.m_ispsx slot = true) (hlen : (mc.m_file slot).data.length = 0x20000) :
    (mc.GetCRC slot).1 = xorWords (mc.m_file slot).data (3 * crcBufferWords) 0 := by
  have hS : sizeof_crcBuffer = 33792 := by decide
  have hchunks : ((mc.m_file slot).Length / sizeof_crcBuffer) % U32_MOD = 3 := by
    rw [wxFFile.Length, hlen, hS]
    decide
  have htarget : seekTarget (mc.m_file slot).Length 0 = 0 := by
    rw [wxFFile.Length, hlen]
    decide
  have hloop := crcLoop_fst crcBufferWords 3 { mc.m_file slot with pos := 0 }
    (List.replicate sizeof_crcBuffer 0) 0 ho (List.length_replicate _ _) (by
      show 0 + 3 * (crcBufferWords * 8) ≤ (mc.m_file slot).data.length
      rw [hlen]; decide)
  simp only [List.drop_zero] at hloop
  rw [← hloop]
  simp only [GetCRC, wxFFile.IsOpened, ho, hpsx, Seek_ok _ _ ho hs, hchunks, htarget,
    Bool.not_true, if_true, Bool.false_eq_true, if_false]

theorem OpenSlot_legacy (mc : FileMemoryCard) (slot : Fin 8) (f : wxFFile)
    (ho : f.opened = true) (hlen : f.data.length = 0x20000) :
    OpenSlot mc slot f =
      { mc with
        m_file := Function.update mc.m_file slot f,
        m_ispsx := Function.update mc.m_ispsx slot true,
        m_chkaddr := 0x210 } := by
  simp [OpenSlot, wxFFile.IsOpened, wxFFile.Length, ho, hlen]

theorem OpenSlot_ispsx (mc : FileMemoryCard) (slot : Fin 8) (f : wxFFile)
    (ho : f.opened = true) :
    (OpenSlot mc slot f).m_ispsx slot = decide (f.Length = 0x20000) := by
  unfold OpenSlot
  simp only [wxFFile.IsOpened, ho, Bool.not_true, Bool.false_eq_true, if_false]
  split_ifs <;> simp

theorem legacyCard_eq :
    legacyCard =
      { newCard with
        m_file := Function.update newCard.m_file 0 (hostFile (List.replicate 0x20000 0x0F) 4096),
        m_ispsx := Function.update newCard.m_ispsx 0 true,
        m_chkaddr := 0x210 } :=
  OpenSlot_legacy newCard 0 (hostFile (List.replicate 0x20000 0x0F) 4096) rfl
    (List.length_replicate _ _)

theorem legacyCard_file :
    legacyCard.m_file 0 = hostFile (List.replicate 0x20000 0x0F) 4096 := by
  rw [legacyCard_eq]
  simp only [Function.update_same]

theorem hostFile_Length (data : List Nat) (wcap : Nat) :
    (hostFile data wcap).Length = data.length := rfl

theorem legacyCard_ispsx : legacyCard.m_ispsx 0 = true := by
  rw [legacyCard_eq]
  simp only [Function.update_same]

/-! Auxiliary facts about Create -/

theorem sizeof_effeffs_eq : sizeof_effeffs = 8448 := by decide

theorem writeAt_end (data chunk : List Nat) :
    wxFFile.writeAt data data.length chunk = data ++ chunk := by
  cases chunk with
  | nil => rw [wxFFile.writeAt, List.append_nil]
  | cons c cs =>
    rw [wxFFile.writeAt, Nat.sub_self, List.replicate_zero, List.append_nil, List.take_length,
      List.drop_eq_nil_of_le (by omega), List.append_nil]

theorem Write_effeffs_full (fp : wxFFile) (ho : fp.opened = true)
    (hw : sizeof_effeffs ≤ fp.wcap) (hp : fp.pos = fp.data.length) :
    fp.Write m_effeffs sizeof_effeffs =
      (sizeof_effeffs, { fp with data := fp.data ++ m_effeffs, pos := fp.pos + sizeof_effeffs }) := by
  have htake : m_effeffs.take sizeof_effeffs = m_effeffs := by
    rw [← m_effeffs_length]; exact List.take_length _
  simp only [wxFFile.Write, ho, if_true, Nat.min_eq_left hw, htake, hp, writeAt_end]

theorem createLoop_full (n : Nat) (fp : wxFFile) (ho : fp.opened = true)
    (hw : sizeof_effeffs ≤ fp.wcap) (hp : fp.pos = fp.data.length) :
    createLoop n fp =
      (true, { fp with data := fp.data ++ List.replicate (n * sizeof_effeffs) 0xFF,
                       pos := fp.pos + n * sizeof_effeffs }) := by
  induction n generalizing fp with
  | zero => simp [createLoop]
  | succ n ih =>
    have hne : sizeof_effeffs ≠ 0 := by rw [sizeof_effeffs_eq]; decide
    rw [createLoop, Write_effeffs_full fp ho hw hp]
    simp only [hne, if_false]
    rw [ih { fp with data := fp.data ++ m_effeffs, pos := fp.pos + sizeof_effeffs } ho hw (by
      show fp.pos + sizeof_effeffs = (fp.data ++ m_effeffs).length
      rw [List.length_append, m_effeffs_length, hp])]
    have hrep : m_effeffs ++ List.replicate (n * sizeof_effeffs) 0xFF
        = List.replicate ((n + 1) * sizeof_effeffs) 0xFF := by
      unfold m_effeffs
      rw [Nat.succ_mul, Nat.add_comm (n * sizeof_effeffs), List.replicate_add]
    have hpos : fp.pos + sizeof_effeffs + n * sizeof_effeffs = fp.pos + (n + 1) * sizeof_effeffs := by
      rw [Nat.succ_mul]; omega
    simp only [List.append_assoc, hrep, hpos]

theorem Create_ok (wcap sizeInMB : Nat) (hw : sizeof_effeffs ≤ wcap) :
    Create true wcap sizeInMB =
      (true, { wxFFile.openWB true wcap with
                data := List.replicate (createChunks sizeInMB * sizeof_effeffs) 0xFF,
                pos := createChunks sizeInMB * sizeof_effeffs }) := by
  unfold Create
  rw [createLoop_full _ _ rfl hw rfl]
  simp [wxFFile.openWB, wxFFile.IsOpened]

theorem createChunks_small (sizeInMB : Nat) (h : MC2_MBSIZE * sizeInMB < 2 ^ 32) :
    createChunks sizeInMB * sizeof_effeffs = sizeInMB * 1081344 := by
  unfold createChunks U32_MOD
  rw [Nat.mod_eq_of_lt h, sizeof_effeffs_eq]
  have : MC2_MBSIZE = 1081344 := by decide
  rw [this]
  omega

theorem region_replicate (n p size v : Nat) (h : p + size ≤ n) :
    ((List.replicate n v).drop p).take size = List.replicate size v := by
  rw [List.drop_replicate, List.take_replicate, Nat.min_eq_left (by omega)]

/-! Auxiliary facts about sequences of Save calls -/

theorem xorWords_acc (buf : List Nat) (n acc : Nat) :
    xorWords buf n acc = acc ^^^ xorWords buf n 0 := by
  induction n with
  | zero => simp [xorWords]
  | succ n ih =>
    unfold xorWords at ih ⊢
    rw [List.range_succ, List.foldl_append, List.foldl_append, ih]
    simp only [List.foldl_cons, List.foldl_nil]
    rw [Nat.xor_assoc]

theorem region_after_disjoint_write (data M : List Nat) (p n q m : Nat) (hM : M.length = n)
    (hp : p + n ≤ data.length)
    (hd : p + n ≤ q ∨ q + m ≤ p) :
    ((data.take p ++ M ++ data.drop (p + n)).drop q).take m = (data.drop q).take m := by
  subst hM
  have hl : (data.take p).length = p := by
    rw [List.length_take]; omega
  rcases hd with h | h
  · have hl2 : (data.take p ++ M).length = p + M.length := by
      rw [List.length_append, hl]
    have hq : q = (data.take p ++ M).length + (q - (p + M.length)) := by omega
    rw [hq, List.drop_append, List.drop_drop, hl2]
  · rw [List.append_assoc, List.drop_append_of_le_length (by omega),
      List.take_append_of_le_length (by rw [List.length_drop, hl]; omega),
      List.drop_take, List.take_take, Nat.min_eq_left (by omega)]

theorem Save_std_inrange (mc : FileMemoryCard) (slot : Fin 8) (src : List Nat) (adr L W : Nat)
    (hr : SlotReady mc slot L W) (hw : src.length ≤ W)
    (hin : seekTarget L adr + src.length ≤ L) :
    ((mc.Save slot src adr src.length).2.m_file slot).data =
        (mc.m_file slot).data.take (seekTarget L adr)
          ++ mergedBuffer (regionOf (mc.m_file slot) adr src.length) src
          ++ (mc.m_file slot).data.drop (seekTarget L adr + src.length) ∧
    (mc.Save slot src adr src.length).2.m_chksum slot =
        mc.m_chksum slot ^^^ foldWords (mergedBuffer (regionOf (mc.m_file slot) adr src.length) src) ∧
    SlotReady (mc.Save slot src adr src.length).2 slot L W := by
  obtain ⟨ho, hs, hpsx, hlen, hwc⟩ := hr
  have hmin : min src.length (mc.m_file slot).wcap = src.length := by
    rw [hwc]; exact Nat.min_eq_left hw
  have hin' : seekTarget L adr + src.length ≤ (mc.m_file slot).data.length := by
    rw [hlen]; exact hin
  have hM : (mergedBuffer (regionOf (mc.m_file slot) adr src.length) src).length = src.length := by
    unfold mergedBuffer regionOf
    rw [wxFFile.Length, hlen]
    exact zipWith_and_length _ _ _ (region_length _ _ _ hin') rfl
  have hscratch : andInto (overlay (((mc.m_file slot).data.drop (seekTarget L adr)).take src.length)
        (MakeRoomFor mc.m_currentdata src.length)) src src.length =
      mergedBuffer (regionOf (mc.m_file slot) adr src.length) src ++
        (MakeRoomFor mc.m_currentdata src.length).drop src.length := by
    rw [scratch_std_inrange _ _ _ _ _ rfl hin']
    unfold mergedBuffer regionOf
    rw [wxFFile.Length, hlen]
  rw [Save_std_ok mc slot src adr src.length ho hs hpsx]
  simp only [Function.update_same, hmin, wxFFile.Length, hlen, hscratch]
  rw [List.take_left' hM]
  refine ⟨?_, ?_, ?_⟩
  · rw [writeAt_inrange _ _ _ (by rw [hM]; exact hin'), hM]
  · rw [xorWords_append_left _ _ _ _ (by rw [hM]; omega), xorWords_acc]
    unfold foldWords
    rw [hM]
  · refine ⟨?_, ?_, hpsx, ?_, ?_⟩
    · simp only [Function.update_same]; exact ho
    · simp only [Function.update_same]; exact hs
    · simp only [Function.update_same]
      rw [writeAt_length _ _ _ (by rw [hM]; exact hin'), hlen]
    · simp only [Function.update_same]; exact hwc

theorem xor_left_comm (a b c : Nat) : a ^^^ (b ^^^ c) = b ^^^ (a ^^^ c) := by
  rw [← Nat.xor_assoc, ← Nat.xor_assoc, Nat.xor_comm a b]

theorem foldr_xor_perm (xs ys : List Nat) (h : xs.Perm ys) :
    xs.foldr (fun a b => a ^^^ b) 0 = ys.foldr (fun a b => a ^^^ b) 0 := by
  induction h with
  | nil => rfl
  | cons x _ ih => simp only [List.foldr_cons, ih]
  | swap x y l => simp only [List.foldr_cons, xor_left_comm]
  | trans _ _ ih1 ih2 => exact ih1.trans ih2

theorem SaveAll_chksum (slot : Fin 8) (L W : Nat) (ws : List (List Nat × Nat)) :
    ∀ mc : FileMemoryCard, SlotReady mc slot L W →
      (∀ w ∈ ws, w.1.length ≤ W ∧ seekTarget L w.2 + w.1.length ≤ L) →
      (SaveAll mc slot ws).m_chksum slot = mc.m_chksum slot ^^^ writtenWordsXor mc slot ws := by
  induction ws with
  | nil => intro mc _ _; simp [SaveAll, writtenWordsXor]
  | cons w ws ih =>
    intro mc hr hok
    have hw := hok w (List.mem_cons_self _ _)
    obtain ⟨_, hchk, hr2⟩ := Save_std_inrange mc slot w.1 w.2 L W hr hw.1 hw.2
    rw [SaveAll, writtenWordsXor, ih _ hr2 (fun v hv => hok v (List.mem_cons_of_mem _ hv)), hchk,
      Nat.xor_assoc]

theorem writtenWordsXor_disjoint (slot : Fin 8) (L W : Nat) (ws : List (List Nat × Nat)) :
    ∀ mc : FileMemoryCard, SlotReady mc slot L W →
      (∀ w ∈ ws, w.1.length ≤ W ∧ seekTarget L w.2 + w.1.length ≤ L) →
      ws.Pairwise (regionsDisjoint L) →
      writtenWordsXor mc slot ws =
        (ws.map (fun w => foldWords (mergedBuffer
          (((mc.m_file slot).data.drop (seekTarget L w.2)).take w.1.length) w.1))).foldr
          (fun a b => a ^^^ b) 0 := by
  induction ws with
  | nil => intro mc _ _ _; simp [writtenWordsXor]
  | cons w ws ih =>
    intro mc hr hok hpw
    have hw := hok w (List.mem_cons_self _ _)
    obtain ⟨hdata, _, hr2⟩ := Save_std_inrange mc slot w.1 w.2 L W hr hw.1 hw.2
    rw [List.pairwise_cons] at hpw
    have hreg : regionOf (mc.m_file slot) w.2 w.1.length
        = ((mc.m_file slot).data.drop (seekTarget L w.2)).take w.1.length := by
      unfold regionOf
      rw [wxFFile.Length, hr.len]
    have hM : (mergedBuffer (regionOf (mc.m_file slot) w.2 w.1.length) w.1).length = w.1.length := by
      rw [hreg]
      exact zipWith_and_length _ _ _ (region_length _ _ _ (by rw [hr.len]; exact hw.2)) rfl
    rw [writtenWordsXor, ih _ hr2 (fun v hv => hok v (List.mem_cons_of_mem _ hv)) hpw.2,
      List.map_cons, List.foldr_cons, hreg]
    congr 2
    apply List.map_congr_left
    intro v hv
    have hdis := hpw.1 v hv
    rw [hdata, region_after_disjoint_write _ _ _ _ _ _ hM
      (by rw [hr.len]; exact hw.2) hdis]

/-! Auxiliary facts about the scratch buffer -/

/-- On a standard-format slot, a Save whose region lies inside the file does not depend on
the scratch buffer: two states that agree on the file object and on the checksum of the
slot end, for the same src, adr and size, with the same return value, the same file object
and the same checksum, whatever their scratch buffers hold and however many bytes the host
stores. -/
theorem Save_inrange_ignores_scratch (mc1 mc2 : FileMemoryCard) (slot : Fin 8)
    (src : List Nat) (adr size : Nat)
    (hfile : mc1.m_file slot = mc2.m_file slot) (hchk : mc1.m_chksum slot = mc2.m_chksum slot)
    (hstd1 : mc1.m_ispsx slot = false) (hstd2 : mc2.m_ispsx slot = false)
    (ho : (mc1.m_file slot).IsOpened = true) (hs : (mc1.m_file slot).seekOk = true)
    (hsrc : src.length = size)
    (hin : seekTarget (mc1.m_file slot).Length adr + size ≤ (mc1.m_file slot).Length) :
    (mc1.Save slot src adr size).1 = (mc2.Save slot src adr size).1 ∧
    (mc1.Save slot src adr size).2.m_file slot = (mc2.Save slot src adr size).2.m_file slot ∧
    (mc1.Save slot src adr size).2.m_chksum slot = (mc2.Save slot src adr size).2.m_chksum slot := by
  have ho1 : (mc1.m_file slot).opened = true := ho
  have hin' : seekTarget (mc1.m_file slot).Length adr + size ≤ (mc1.m_file slot).data.length := hin
  have hz := zipWith_and_length _ src size (region_length _ _ _ hin') hsrc
  have key : ∀ scratch : List Nat,
      (andInto (overlay (((mc1.m_file slot).data.drop
          (seekTarget (mc1.m_file slot).Length adr)).take size)
          (MakeRoomFor scratch size)) src size).take (min size (mc1.m_file slot).wcap) =
        (List.zipWith (fun a b => a &&& b) (((mc1.m_file slot).data.drop
          (seekTarget (mc1.m_file slot).Length adr)).take size) src).take
            (min size (mc1.m_file slot).wcap) ∧
      xorWords (andInto (overlay (((mc1.m_file slot).data.drop
          (seekTarget (mc1.m_file slot).Length adr)).take size)
          (MakeRoomFor scratch size)) src size) (size / 8) (mc1.m_chksum slot) =
        xorWords (List.zipWith (fun a b => a &&& b) (((mc1.m_file slot).data.drop
          (seekTarget (mc1.m_file slot).Length adr)).take size) src) (size / 8)
          (mc1.m_chksum slot) := by
    intro scratch
    rw [scratch_std_inrange _ _ _ _ _ hsrc hin']
    constructor
    · rw [List.take_append_of_le_length (by rw [hz]; exact Nat.min_le_left _ _)]
    · rw [xorWords_append_left _ _ _ _ (by rw [hz]; omega)]
  rw [Save_std_ok mc1 slot src adr size ho1 hs hstd1,
    Save_std_ok mc2 slot src adr size (hfile ▸ ho1) (hfile ▸ hs) hstd2]
  simp only [Function.update_same, ← hfile, ← hchk, (key mc1.m_currentdata).1,
    (key mc1.m_currentdata).2, (key mc2.m_currentdata).1, (key mc2.m_currentdata).2,
    and_self]

/-! Auxiliary facts about Open and Close -/

theorem range_map_le64 (bs : List Nat) (hb : ∀ b ∈ bs, b < 256) :
    (List.range bs.length).map (fun i => le64 bs / 256 ^ i % 256) = bs := by
  induction bs with
  | nil => rfl
  | cons b bs ih =>
    have hb0 : b < 256 := hb b (List.mem_cons_self _ _)
    have hle : le64 (b :: bs) = b + 256 * le64 bs := rfl
    rw [List.length_cons, List.range_succ_eq_map, List.map_cons, List.map_map, hle]
    congr 1
    · rw [Nat.pow_zero, Nat.div_one]
      omega
    · conv_rhs => rw [← ih (fun x hx => hb x (List.mem_cons_of_mem _ hx))]
      apply List.map_congr_left
      intro i _
      show (b + 256 * le64 bs) / 256 ^ (i + 1) % 256 = le64 bs / 256 ^ i % 256
      have h1 : (b + 256 * le64 bs) / 256 = le64 bs := by omega
      rw [Nat.pow_succ, Nat.mul_comm (256 ^ i) 256, ← Nat.div_div_eq_div_mul, h1]

theorem bytesOfU64_le64 (bs : List Nat) (hl : bs.length = 8) (hb : ∀ b ∈ bs, b < 256) :
    bytesOfU64 (le64 bs) = bs := by
  have := range_map_le64 bs hb
  rw [hl] at this
  exact this

theorem bytesOfU64_length (v : Nat) : (bytesOfU64 v).length = 8 := by
  simp [bytesOfU64]

theorem writeAt_same (D : List Nat) (p k : Nat) (h : p + k ≤ D.length) :
    wxFFile.writeAt D p ((D.drop p).take k) = D := by
  have hlen : ((D.drop p).take k).length = k := region_length D p k h
  rw [writeAt_inrange _ _ _ (by rw [hlen]; exact h), hlen, ← List.drop_drop, List.append_assoc,
    List.take_append_drop, List.take_append_drop]

/-- The file content after the write of Close, when the state of the slot is one in which
Close keeps the content. -/
theorem Close_write_same (D : List Nat) (chk wcap : Nat) (hD : 0x218 ≤ D.length)
    (hchk : bytesOfU64 chk = (D.drop 0x210).take 8) :
    wxFFile.writeAt D 0x210 ((bytesOfU64 chk).take (min 8 wcap)) = D := by
  rw [hchk, List.take_take, Nat.min_eq_left (Nat.min_le_left 8 wcap)]
  exact writeAt_same D 0x210 (min 8 wcap) (by have := Nat.min_le_left 8 wcap; omega)

theorem OpenSlot_establishes (st : FileMemoryCard) (s : Fin 8) (f : wxFFile)
    (ho : f.opened = true) (hb : ∀ b ∈ f.data, b < 256)
    (hlen : f.Length = 0x20000 ∨ 0x218 ≤ f.Length) :
    CloseKeeps (OpenSlot st s f) s f.data := by
  have hL : 0x218 ≤ f.data.length := by
    rcases hlen with h | h
    · have : f.data.length = 0x20000 := h
      omega
    · exact h
  unfold OpenSlot
  simp only [wxFFile.IsOpened, ho, Bool.not_true, Bool.false_eq_true, if_false]
  by_cases hpsx : f.Length = 0x20000
  · simp only [hpsx, decide_True, Bool.not_true, Bool.false_and, Bool.false_eq_true, if_false]
    refine ⟨by simp only [Function.update_same], ?_⟩
    intro _ h2
    simp only [Function.update_same] at h2
    exact absurd h2 (by decide)
  · by_cases hs : f.seekOk = true
    · have hseek : f.Seek 0x210 = (true, { f with pos := 0x210 }) := by
        simp [wxFFile.Seek, ho, hs]
      have hgotlen : ((f.data.drop 0x210).take 8).length = 8 :=
        region_length f.data 0x210 8 (by omega)
      have hread : ({ f with pos := 0x210 } : wxFFile).Read 8 =
          ((f.data.drop 0x210).take 8, { f with pos := 0x210 + 8 }) := by
        simp only [wxFFile.Read, ho, if_true, hgotlen]
      simp only [hpsx, decide_False, Bool.not_false, Bool.true_and, hseek, if_true, hread]
      refine ⟨by simp only [Function.update_same], ?_⟩
      intro _ _ _
      refine ⟨rfl, hL, ?_⟩
      simp only [Function.update_same]
      have hov : overlay ((f.data.drop 0x210).take 8) (bytesOfU64 (st.m_chksum s))
          = (f.data.drop 0x210).take 8 := by
        have hd : (bytesOfU64 (st.m_chksum s)).drop 8 = [] :=
          List.drop_eq_nil_of_le (by rw [bytesOfU64_length])
        unfold overlay
        rw [hgotlen, hd, List.append_nil]
      rw [hov]
      exact bytesOfU64_le64 _ hgotlen
        (fun b hb2 => hb b (List.mem_of_mem_drop (List.mem_of_mem_take hb2)))
    · have hseek : (f.Seek 0x210).1 = false := by
        simp [wxFFile.Seek, ho, hs]
      simp only [hseek, Bool.and_false, Bool.false_eq_true, if_false]
      refine ⟨by simp only [Function.update_same], ?_⟩
      intro _ _ h3
      simp only [Function.update_same] at h3
      exact absurd h3 hs

theorem OpenSlot_other (st : FileMemoryCard) (s t : Fin 8) (f : wxFFile) (D : List Nat)
    (hne : s ≠ t) (hk : CloseKeeps st s D) :
    CloseKeeps (OpenSlot st t f) s D := by
  obtain ⟨hd, hw⟩ := hk
  unfold OpenSlot
  split_ifs
  · exact ⟨by simp only [Function.update_noteq hne]; exact hd,
      fun h1 h2 h3 => hw (by simpa only [Function.update_noteq hne] using h1) h2
        (by simpa only [Function.update_noteq hne] using h3)⟩
  · refine ⟨by simp only [Function.update_noteq hne]; exact hd, fun h1 h2 h3 => ?_⟩
    simp only [Function.update_noteq hne] at h1 h2 h3 ⊢
    exact ⟨trivial, (hw h1 h2 h3).2⟩
  · refine ⟨by simp only [Function.update_noteq hne]; exact hd, fun h1 h2 h3 => ?_⟩
    simp only [Function.update_noteq hne] at h1 h2 h3 ⊢
    exact ⟨trivial, (hw h1 h2 h3).2⟩

theorem OpenStep_keeps (host : Fin 8 → Option wxFFile) (st : FileMemoryCard) (s t : Fin 8)
    (f : wxFFile) (hhost : host s = some f) (ho : f.opened = true)
    (hb : ∀ b ∈ f.data, b < 256) (hlen : f.Length = 0x20000 ∨ 0x218 ≤ f.Length)
    (hk : t = s ∨ CloseKeeps st s f.data) :
    CloseKeeps (OpenStep host st t) s f.data := by
  by_cases hts : t = s
  · subst hts
    unfold OpenStep
    rw [hhost]
    exact OpenSlot_establishes st t f ho hb hlen
  · have hk2 : CloseKeeps st s f.data := hk.resolve_left hts
    unfold OpenStep
    cases host t with
    | none => exact hk2
    | some g => exact OpenSlot_other st s t g f.data (fun h => hts h.symm) hk2

theorem Open_fold_inv (P : FileMemoryCard → Prop) (host : Fin 8 → Option wxFFile) (s : Fin 8)
    (hest : ∀ st : FileMemoryCard, P (OpenStep host st s))
    (hpres : ∀ (st : FileMemoryCard) (t : Fin 8), t ≠ s → P st → P (OpenStep host st t))
    (l : List (Fin 8)) :
    ∀ st : FileMemoryCard, s ∈ l ∨ P st → P (l.foldl (OpenStep host) st) := by
  induction l with
  | nil =>
    intro st h
    rcases h with h | h
    · cases h
    · exact h
  | cons t l ih =>
    intro st h
    rw [List.foldl_cons]
    by_cases hts : t = s
    · subst hts
      exact ih _ (Or.inr (hest st))
    · rcases h with h | h
      · rcases List.mem_cons.mp h with h1 | h1
        · exact absurd h1.symm hts
        · exact ih _ (Or.inl h1)
      · exact ih _ (Or.inr (hpres st t hts h))

theorem OpenStep_ispsx_other (host : Fin 8 → Option wxFFile) (st : FileMemoryCard)
    (s t : Fin 8) (hts : t ≠ s) :
    (OpenStep host st t).m_ispsx s = st.m_ispsx s := by
  have hne : s ≠ t := fun h => hts h.symm
  unfold OpenStep
  cases host t with
  | none => rfl
  | some g =>
    show (OpenSlot st t g).m_ispsx s = st.m_ispsx s
    unfold OpenSlot
    split_ifs <;> simp only [Function.update_noteq hne]

theorem mem_allSlots (s : Fin 8) : s ∈ allSlots := by
  revert s
  decide

theorem CloseSlot_keeps (st : FileMemoryCard) (s t : Fin 8) (D : List Nat)
    (hk : CloseKeeps st s D) : CloseKeeps (CloseSlot st t) s D := by
  obtain ⟨hd, hw⟩ := hk
  by_cases hts : t = s
  · subst hts
    unfold CloseSlot
    by_cases hop : (st.m_file t).opened = true
    · simp only [wxFFile.IsOpened, hop, if_true]
      by_cases hcond : (!(st.m_ispsx t) && ((st.m_file t).Seek st.m_chkaddr).1) = true
      · simp only [hcond, if_true]
        have hpsx : st.m_ispsx t = false := by
          cases hp : st.m_ispsx t
          · rfl
          · rw [hp] at hcond; simp at hcond
        have hsk : (st.m_file t).seekOk = true := by
          cases hq : (st.m_file t).seekOk
          · simp [wxFFile.Seek, hop, hq, hpsx] at hcond
          · rfl
        obtain ⟨hadr, hlen, hbytes⟩ := hw hop hpsx hsk
        have hseek : (st.m_file t).Seek 0x210
            = (true, { st.m_file t with pos := 0x210 }) := by
          simp [wxFFile.Seek, hop, hsk]
        refine ⟨?_, fun h1 => ?_⟩
        · simp only [Function.update_same, hadr, hseek, wxFFile.Write, hop, if_true,
            wxFFile.Close, hd]
          exact Close_write_same D _ _ hlen hbytes
        · simp [wxFFile.Close, wxFFile.Write, hadr, hseek, hop] at h1
      · simp only [hcond, Bool.false_eq_true, if_false]
        refine ⟨by simp only [Function.update_same, wxFFile.Close]; exact hd, fun h1 => ?_⟩
        simp [wxFFile.Close] at h1
    · simp only [wxFFile.IsOpened, hop, Bool.false_eq_true, if_false]
      exact ⟨hd, hw⟩
  · have hne : s ≠ t := fun h => hts h.symm
    unfold CloseSlot
    split_ifs
    · exact ⟨by simp only [Function.update_noteq hne]; exact hd,
        fun h1 h2 h3 => hw (by simpa only [Function.update_noteq hne] using h1) h2
          (by simpa only [Function.update_noteq hne] using h3)⟩
    · exact ⟨by simp only [Function.update_noteq hne]; exact hd,
        fun h1 h2 h3 => hw (by simpa only [Function.update_noteq hne] using h1) h2
          (by simpa only [Function.update_noteq hne] using h3)⟩
    · exact ⟨hd, hw⟩

theorem Close_fold_keeps (s : Fin 8) (D : List Nat) (l : List (Fin 8)) :
    ∀ st : FileMemoryCard, CloseKeeps st s D → CloseKeeps (l.foldl CloseSlot st) s D := by
  induction l with
  | nil => intro st h; exact h
  | cons t l ih =>
    intro st h
    rw [List.foldl_cons]
    exact ih _ (CloseSlot_keeps st s t D h)

theorem mc_Open_keeps (mc : FileMemoryCard) (host : Fin 8 → Option wxFFile) (s : Fin 8)
    (f : wxFFile) (hhost : host s = some f) (ho : f.opened = true)
    (hb : ∀ b ∈ f.data, b < 256) (hlen : f.Length = 0x20000 ∨ 0x218 ≤ f.Length) :
    CloseKeeps (mc.Open host) s f.data :=
  Open_fold_inv (fun st => CloseKeeps st s f.data) host s
    (fun st => OpenStep_keeps host st s s f hhost ho hb hlen (Or.inl rfl))
    (fun st t _ h => OpenStep_keeps host st s t f hhost ho hb hlen (Or.inr h))
    allSlots mc (Or.inl (mem_allSlots s))

theorem mc_Open_ispsx (mc : FileMemoryCard) (host : Fin 8 → Option wxFFile) (s : Fin 8)
    (f : wxFFile) (hhost : host s = some f) (ho : f.opened = true) :
    (mc.Open host).m_ispsx s = decide (f.Length = 0x20000) :=
  Open_fold_inv (fun st => st.m_ispsx s = decide (f.Length = 0x20000)) host s
    (fun st => by
      show (OpenStep host st s).m_ispsx s = decide (f.Length = 0x20000)
      unfold OpenStep
      rw [hhost]
      exact OpenSlot_ispsx st s f ho)
    (fun st t hts h => by
      show (OpenStep host st t).m_ispsx s = decide (f.Length = 0x20000)
      rw [OpenStep_ispsx_other host st s t hts]
      exact h)
    allSlots mc (Or.inl (mem_allSlots s))

/-! Auxiliary facts about the region of a Save -/

/-- The flash merge at the position Seek resolves: when the region of size bytes that
starts at seekTarget lies inside the file, the seeks succeed and the write is complete,
Save leaves (old byte AND src byte) there on a standard-format card and src on a
legacy-format card. -/
theorem Save_region_at_seekTarget (mc : FileMemoryCard) (slot : Fin 8) (src : List Nat) (adr size : Nat)
    (ho : (mc.m_file slot).IsOpened = true) (hs : (mc.m_file slot).seekOk = true)
    (hw : size ≤ (mc.m_file slot).wcap) (hsrc : src.length = size)
    (hin : seekTarget (mc.m_file slot).Length adr + size ≤ (mc.m_file slot).Length) :
    (mc.m_ispsx slot = false →
      ((((mc.Save slot src adr size).2.m_file slot).data.drop
          (seekTarget (mc.m_file slot).Length adr)).take size =
        List.zipWith (fun old new => old &&& new)
          (((mc.m_file slot).data.drop (seekTarget (mc.m_file slot).Length adr)).take size) src)) ∧
    (mc.m_ispsx slot = true →
      ((((mc.Save slot src adr size).2.m_file slot).data.drop
          (seekTarget (mc.m_file slot).Length adr)).take size = src)) := by
  have ho' : (mc.m_file slot).opened = true := ho
  have hmin : min size (mc.m_file slot).wcap = size := Nat.min_eq_left hw
  have hin' : seekTarget (mc.m_file slot).Length adr + size ≤ (mc.m_file slot).data.length := hin
  constructor
  · intro hpsx
    rw [Save_std_ok mc slot src adr size ho' hs hpsx]
    simp only [Function.update_same, hmin]
    rw [scratch_std_inrange _ _ _ _ _ hsrc hin']
    have hz := zipWith_and_length _ src size (region_length _ _ _ hin') hsrc
    rw [List.take_left' hz]
    have := region_writeAt (mc.m_file slot).data _ (seekTarget (mc.m_file slot).Length adr)
      (by rw [hz]; exact hin')
    rw [hz] at this
    exact this
  · intro hpsx
    rw [Save_psx_ok mc slot src adr size ho' hs hpsx]
    simp only [Function.update_same, hmin]
    rw [copyInto_eq _ _ _ (MakeRoomFor_length _ _) hsrc]
    rw [List.take_left' hsrc]
    have := region_writeAt (mc.m_file slot).data src (seekTarget (mc.m_file slot).Length adr)
      (by rw [hsrc]; exact hin')
    rw [hsrc] at this
    exact this

theorem seekTarget_small (L adr off : Nat) (hL : L < 2 ^ 32)
    (hoff : off = if L = 0x20000 + 64 then 64 else if L = 0x20000 + 3904 then 3904 else 0)
    (h : adr + off < 2 ^ 32) : seekTarget L adr = adr + off := by
  subst hoff
  simp only [seekTarget, seekOffset, MCD_SIZE, U32_MOD, Nat.mod_eq_of_lt hL]
  norm_num
  split_ifs at h ⊢ <;> omega

theorem singleCard_file (f : wxFFile) (psx : Bool) (chk : Nat) (scratch : List Nat) :
    (singleCard f psx chk scratch).m_file 0 = f := rfl

theorem singleCard_ispsx (f : wxFFile) (psx : Bool) (chk : Nat) (scratch : List Nat) :
    (singleCard f psx chk scratch).m_ispsx 0 = psx := rfl

theorem hostFile_data (data : List Nat) (wcap : Nat) : (hostFile data wcap).data = data := rfl

theorem headerCard_file :
    headerCard.m_file 0 = hostFile (List.replicate (0x20000 + 64) 0x0F) 64 :=
  singleCard_file _ _ _ _

theorem Save_status_of_write (mc : FileMemoryCard) (slot : Fin 8) (src : List Nat)
    (adr size : Nat)
    (ho : (mc.m_file slot).opened = true) (hs : (mc.m_file slot).seekOk = true) :
    (mc.Save slot src adr size).1 = if min size (mc.m_file slot).wcap = 0 then 0 else 1 := by
  cases hpsx : mc.m_ispsx slot
  · rw [Save_std_ok mc slot src adr size ho hs hpsx]
    by_cases h : min size (mc.m_file slot).wcap = 0 <;> simp [h]
  · rw [Save_psx_ok mc slot src adr size ho hs hpsx]
    by_cases h : min size (mc.m_file slot).wcap = 0 <;> simp [h]

theorem region_after_write_at (data M : List Nat) (p : Nat) (hp : p ≤ data.length) (n k : Nat)
    (hk : k = M.length) :
    ((data.take p ++ M ++ data.drop (p + n)).drop p).take k = M := by
  subst hk
  have hl : (data.take p).length = p := by
    rw [List.length_take]; omega
  rw [List.append_assoc, List.drop_append_of_le_length (by omega),
    List.drop_eq_nil_of_le (by omega), List.nil_append, List.take_left' rfl]

/-! Theorems for the claims -/

/-- C1, as stated, fails: on a standard-format card whose file has 2^32 + 0x20000 + 64
bytes, all 0xFF, Seek takes the offset 64 and the u32 sum 0xFFFFFFFF + 64 wraps to 63.  The
region [adr + offset, adr + offset + 1) for adr = 0xFFFFFFFF lies inside the file, all I/O
succeeds and Save returns 1, but after Save of the byte 0x00 that region still holds 0xFF
and not 0xFF AND 0x00; so does the byte at adr itself; the byte that was merged is the one
at position 63. -/
theorem Save_region_wraps_u32 :
    ((wrapCard.m_file 0).Length = 2 ^ 32 + 0x20000 + 64 ∧
      (wrapCard.m_file 0).IsOpened = true ∧ wrapCard.m_ispsx 0 = false ∧
      0xFFFFFFFF + 64 + 1 ≤ (wrapCard.m_file 0).Length) ∧
    (wrapCard.Save 0 [0x00] 0xFFFFFFFF 1).1 = 1 ∧
    (((wrapCard.m_file 0).data.drop (0xFFFFFFFF + 64)).take 1 = [0xFF] ∧
      (((wrapCard.Save 0 [0x00] 0xFFFFFFFF 1).2.m_file 0).data.drop (0xFFFFFFFF + 64)).take 1
        = [0xFF] ∧
      List.zipWith (fun old new => old &&& new) [0xFF] [0x00] ≠ [0xFF]) ∧
    (((wrapCard.Save 0 [0x00] 0xFFFFFFFF 1).2.m_file 0).data.drop 0xFFFFFFFF).take 1 = [0xFF] ∧
    (((wrapCard.Save 0 [0x00] 0xFFFFFFFF 1).2.m_file 0).data.drop 63).take 1 = [0x00] := by
  have hfile : wrapCard.m_file 0 = hostFile (List.replicate (2 ^ 32 + 0x20000 + 64) 0xFF) 64 :=
    singleCard_file _ _ _ _
  have hdata : (wrapCard.m_file 0).data = List.replicate (2 ^ 32 + 0x20000 + 64) 0xFF := by
    rw [hfile, hostFile_data]
  have hlen : (wrapCard.m_file 0).data.length = 2 ^ 32 + 0x20000 + 64 := by
    rw [hdata, List.length_replicate]
  have hLen : (wrapCard.m_file 0).Length = 2 ^ 32 + 0x20000 + 64 := hlen
  have ho : (wrapCard.m_file 0).opened = true := by rw [hfile]; rfl
  have hs : (wrapCard.m_file 0).seekOk = true := by rw [hfile]; rfl
  have hwc : (wrapCard.m_file 0).wcap = 64 := by rw [hfile]; rfl
  have hpsx : wrapCard.m_ispsx 0 = false := singleCard_ispsx _ _ _ _
  have hr : SlotReady wrapCard 0 (2 ^ 32 + 0x20000 + 64) 64 := ⟨ho, hs, hpsx, hlen, hwc⟩
  have ht : seekTarget (2 ^ 32 + 0x20000 + 64) 0xFFFFFFFF = 63 := by decide
  have hret := (Save_status_of_write wrapCard 0 [0x00] 0xFFFFFFFF 1 ho hs)
  obtain ⟨hnew, -, -⟩ := Save_std_inrange wrapCard 0 [0x00] 0xFFFFFFFF
    (2 ^ 32 + 0x20000 + 64) 64 hr (by decide) (by rw [ht]; decide)
  have hlen1 : ([0x00] : List Nat).length = 1 := rfl
  rw [hlen1, ht] at hnew
  have hM : (mergedBuffer (regionOf (wrapCard.m_file 0) 0xFFFFFFFF 1) [0x00]).length = 1 := by
    unfold mergedBuffer regionOf
    rw [hLen, ht]
    exact zipWith_and_length _ _ _ (region_length _ _ _ (by rw [hlen]; decide)) rfl
  have hMval : mergedBuffer (regionOf (wrapCard.m_file 0) 0xFFFFFFFF 1) [0x00] = [0x00] := by
    unfold mergedBuffer regionOf
    rw [hLen, ht, hdata, region_replicate _ _ _ _ (by decide)]
    decide
  refine ⟨⟨hLen, ho, hpsx, by rw [hLen]; decide⟩, ?_, ⟨?_, ?_, by decide⟩, ?_, ?_⟩
  · rw [hret, hwc]
    decide
  · rw [hdata, region_replicate _ _ _ _ (by decide)]
    rfl
  · rw [hnew, region_after_disjoint_write _ _ 63 1 _ 1 hM (by rw [hlen]; decide)
      (Or.inl (by decide)), hdata, region_replicate _ _ _ _ (by decide)]
    rfl
  · rw [hnew, region_after_disjoint_write _ _ 63 1 _ 1 hM (by rw [hlen]; decide)
      (Or.inl (by decide)), hdata, region_replicate _ _ _ _ (by decide)]
    rfl
  · rw [hnew, region_after_write_at _ _ 63 (by rw [hlen]; decide) 1 1 hM.symm, hMval]

/-- C1, amended: flash-merge law for Save on files shorter than 2^32 bytes.  For an open
slot whose file has length L < 2^32, an address adr and a buffer src of length size such
that the region [adr + off, adr + off + size) lies inside the file, where off is 64 for
L = 0x20000 + 64, 3904 for L = 0x20000 + 3904 and 0 for every other length, on a host whose
seeks succeed and whose write stores all size bytes: after Save the bytes of that region
are (old byte AND src byte) position by position on a standard-format card (m_ispsx false),
and are src verbatim on a legacy-format card (m_ispsx true). -/
theorem Save_flash_merge (mc : FileMemoryCard) (slot : Fin 8) (src : List Nat) (adr size : Nat)
    (L off : Nat)
    (ho : (mc.m_file slot).IsOpened = true) (hs : (mc.m_file slot).seekOk = true)
    (hw : size ≤ (mc.m_file slot).wcap) (hsrc : src.length = size)
    (hlen : (mc.m_file slot).Length = L) (hL : L < 2 ^ 32)
    (hoff : off = if L = 0x20000 + 64 then 64 else if L = 0x20000 + 3904 then 3904 else 0)
    (hin : adr + off + size ≤ L) :
    (mc.m_ispsx slot = false →
      (((mc.Save slot src adr size).2.m_file slot).data.drop (adr + off)).take size =
        List.zipWith (fun old new => old &&& new)
          (((mc.m_file slot).data.drop (adr + off)).take size) src) ∧
    (mc.m_ispsx slot = true →
      (((mc.Save slot src adr size).2.m_file slot).data.drop (adr + off)).take size = src) := by
  have ht : seekTarget L adr = adr + off := seekTarget_small L adr off hL hoff (by omega)
  have h := Save_region_at_seekTarget mc slot src adr size ho hs hw hsrc
    (by rw [hlen, ht]; exact hin)
  rw [hlen, ht] at h
  exact h

/-- Witness for C1: a standard-format card of four bytes written at address 1, a
legacy-format card of 0x20000 bytes 0x0F written at address 1, and a standard-format card
with a header of 64 bytes written at address 0, each with the two bytes 0xAA 0x55. -/
theorem Save_flash_merge_witness :
    ((((singleCard (hostFile [0xF0, 0x0F, 0xFF, 0x3C] 64) false 0 []).m_file 0).IsOpened = true ∧
      (singleCard (hostFile [0xF0, 0x0F, 0xFF, 0x3C] 64) false 0 []).m_ispsx 0 = false ∧
      ((singleCard (hostFile [0xF0, 0x0F, 0xFF, 0x3C] 64) false 0 []).m_file 0).Length = 4 ∧
      1 + 0 + 2 ≤ 4) ∧
     ((((singleCard (hostFile [0xF0, 0x0F, 0xFF, 0x3C] 64) false 0 []).Save 0
          [0xAA, 0x55] 1 2).2.m_file 0).data.drop (1 + 0)).take 2 =
        List.zipWith (fun old new => old &&& new)
          ((((singleCard (hostFile [0xF0, 0x0F, 0xFF, 0x3C] 64) false 0 []).m_file 0).data.drop
            (1 + 0)).take 2) [0xAA, 0x55] ∧
     List.zipWith (fun old new => old &&& new)
          ((((singleCard (hostFile [0xF0, 0x0F, 0xFF, 0x3C] 64) false 0 []).m_file 0).data.drop
            (1 + 0)).take 2) [0xAA, 0x55] = [0x0A, 0x55]) ∧
    (((legacyCard.m_file 0).IsOpened = true ∧ legacyCard.m_ispsx 0 = true ∧
      (legacyCard.m_file 0).Length = 0x20000 ∧
      ((legacyCard.m_file 0).data.drop (1 + 0)).take 2 = [0x0F, 0x0F]) ∧
     (((legacyCard.Save 0 [0xAA, 0x55] 1 2).2.m_file 0).data.drop (1 + 0)).take 2
        = [0xAA, 0x55]) ∧
    (((headerCard.m_file 0).IsOpened = true ∧ headerCard.m_ispsx 0 = false ∧
      (headerCard.m_file 0).Length = 0x20000 + 64 ∧
      ((headerCard.m_file 0).data.drop (0 + 64)).take 2 = [0x0F, 0x0F]) ∧
     (((headerCard.Save 0 [0xAA, 0x55] 0 2).2.m_file 0).data.drop (0 + 64)).take 2 =
        List.zipWith (fun old new => old &&& new)
          (((headerCard.m_file 0).data.drop (0 + 64)).take 2) [0xAA, 0x55]) :=
  ⟨⟨by decide,
     (Save_flash_merge (singleCard (hostFile [0xF0, 0x0F, 0xFF, 0x3C] 64) false 0 []) 0
        [0xAA, 0x55] 1 2 4 0 (by decide) (by decide) (by decide) (by decide) (by decide)
        (by decide) (by decide) (by decide)).1 (by decide),
     by decide⟩,
   ⟨⟨by rw [legacyCard_file]; rfl, legacyCard_ispsx,
      by rw [legacyCard_file, hostFile_Length, List.length_replicate],
      by rw [legacyCard_file, hostFile_data, region_replicate _ _ _ _ (by decide)]; rfl⟩,
     (Save_flash_merge legacyCard 0 [0xAA, 0x55] 1 2 0x20000 0
        (by rw [legacyCard_file]; rfl) (by rw [legacyCard_file]; rfl)
        (by rw [legacyCard_file]; decide) rfl
        (by rw [legacyCard_file, hostFile_Length, List.length_replicate])
        (by decide) (by decide) (by decide)).2 legacyCard_ispsx⟩,
   ⟨⟨by rw [headerCard_file]; rfl, singleCard_ispsx _ _ _ _,
      by rw [headerCard_file, hostFile_Length, List.length_replicate],
      by rw [headerCard_file, hostFile_data, region_replicate _ _ _ _ (by decide)]; rfl⟩,
     (Save_flash_merge headerCard 0 [0xAA, 0x55] 0 2 (0x20000 + 64) 64
        (by rw [headerCard_file]; rfl) (by rw [headerCard_file]; rfl)
        (by rw [headerCard_file]; decide) rfl
        (by rw [headerCard_file, hostFile_Length, List.length_replicate])
        (by decide) (by decide) (by decide)).1 (singleCard_ispsx _ _ _ _)⟩⟩

/-- C2: checksum law.  For an open standard-format slot with initial checksum c0 and every
finite sequence ws of Save calls that are in range and completely written, the final
m_chksum is c0 XOR the XOR of every 64-bit word (the first floor(size/8) words) of each
post-merge buffer (existing AND src) that was written; and when the calls target pairwise
non-overlapping regions, every permutation of the sequence ends with the same checksum. -/
theorem Save_checksum_law (mc : FileMemoryCard) (slot : Fin 8) (ws : List (List Nat × Nat))
    (ho : (mc.m_file slot).IsOpened = true) (hs : (mc.m_file slot).seekOk = true)
    (hstd : mc.m_ispsx slot = false)
    (hok : ∀ w ∈ ws, w.1.length ≤ (mc.m_file slot).wcap ∧
      seekTarget (mc.m_file slot).Length w.2 + w.1.length ≤ (mc.m_file slot).Length) :
    (SaveAll mc slot ws).m_chksum slot = mc.m_chksum slot ^^^ writtenWordsXor mc slot ws ∧
    (ws.Pairwise (regionsDisjoint (mc.m_file slot).Length) →
      ∀ ws2 : List (List Nat × Nat), ws2.Perm ws →
        (SaveAll mc slot ws2).m_chksum slot = (SaveAll mc slot ws).m_chksum slot) := by
  have hr : SlotReady mc slot (mc.m_file slot).Length (mc.m_file slot).wcap :=
    ⟨ho, hs, hstd, rfl, rfl⟩
  refine ⟨SaveAll_chksum slot _ _ ws mc hr hok, ?_⟩
  intro hpw ws2 hperm
  have hok2 : ∀ w ∈ ws2, w.1.length ≤ (mc.m_file slot).wcap ∧
      seekTarget (mc.m_file slot).Length w.2 + w.1.length ≤ (mc.m_file slot).Length :=
    fun w hw => hok w (hperm.mem_iff.mp hw)
  have hpw2 : ws2.Pairwise (regionsDisjoint (mc.m_file slot).Length) :=
    hperm.symm.pairwise hpw (fun h => Or.symm h)
  rw [SaveAll_chksum slot _ _ ws mc hr hok, SaveAll_chksum slot _ _ ws2 mc hr hok2,
    writtenWordsXor_disjoint slot _ _ ws mc hr hok hpw,
    writtenWordsXor_disjoint slot _ _ ws2 mc hr hok2 hpw2]
  congr 1
  exact foldr_xor_perm _ _ (hperm.map _)

/-- Witness for C2: two calls of 8 bytes on disjoint regions of a card of 32 bytes, and the
same calls in reverse order. -/
theorem Save_checksum_law_witness :
    ((sampleCard.m_file 0).IsOpened = true ∧ (sampleCard.m_file 0).seekOk = true ∧
      sampleCard.m_ispsx 0 = false) ∧
    (∀ w ∈ sampleWrites, w.1.length ≤ (sampleCard.m_file 0).wcap ∧
      seekTarget (sampleCard.m_file 0).Length w.2 + w.1.length ≤ (sampleCard.m_file 0).Length) ∧
    sampleWrites.Pairwise (regionsDisjoint (sampleCard.m_file 0).Length) ∧
    (SaveAll sampleCard 0 sampleWrites).m_chksum 0 =
      sampleCard.m_chksum 0 ^^^ writtenWordsXor sampleCard 0 sampleWrites ∧
    (SaveAll sampleCard 0 sampleWrites.reverse).m_chksum 0 =
      (SaveAll sampleCard 0 sampleWrites).m_chksum 0 :=
  ⟨by decide, by decide, by decide,
    (Save_checksum_law sampleCard 0 sampleWrites (by decide) (by decide) (by decide)
      (by decide)).1,
    (Save_checksum_law sampleCard 0 sampleWrites (by decide) (by decide) (by decide)
      (by decide)).2 (by decide) sampleWrites.reverse (List.reverse_perm _)⟩

/-- C3 fails on the code.  GetCRC on a legacy-format card folds only
(0x20000 / 33792) * 4224 = 12672 of the 16384 words of the file: on the legacy image of
0x20000 bytes whose only non-zero byte is the last one, opened through Open, GetCRC returns
0, while the XOR of all 16384 words of the file is 2^56. -/
theorem GetCRC_legacy_skips_tail :
    legacyTailImage.length = 0x20000 ∧
    (OpenSlot newCard 0 (hostFile legacyTailImage 0)).m_ispsx 0 = true ∧
    ((OpenSlot newCard 0 (hostFile legacyTailImage 0)).GetCRC 0).1 = 0 ∧
    xorWords legacyTailImage 16384 0 = 2 ^ 56 := by
  have hlen : legacyTailImage.length = 0x20000 := by
    unfold legacyTailImage
    rw [List.length_append, List.length_replicate]
    rfl
  have hopen : OpenSlot newCard 0 (hostFile legacyTailImage 0) =
      { newCard with
        m_file := Function.update newCard.m_file 0 (hostFile legacyTailImage 0),
        m_ispsx := Function.update newCard.m_ispsx 0 true,
        m_chkaddr := 0x210 } :=
    OpenSlot_legacy newCard 0 (hostFile legacyTailImage 0) rfl hlen
  have hzero : ∀ n, 8 * n ≤ 0x1FFF8 → xorWords legacyTailImage n 0 = 0 := by
    intro n hn
    unfold legacyTailImage
    rw [xorWords_append_left _ _ _ _ (by rw [List.length_replicate]; exact hn),
      xorWords_replicate_zero]
  refine ⟨hlen, ?_, ?_, ?_⟩
  · rw [hopen]
    simp only [Function.update_same]
  · rw [GetCRC_legacy _ 0 (by rw [hopen]; simp only [Function.update_same]; rfl)
      (by rw [hopen]; simp only [Function.update_same]; rfl)
      (by rw [hopen]; simp only [Function.update_same])
      (by rw [hopen]; simp only [Function.update_same]; exact hlen)]
    rw [hopen]
    simp only [Function.update_same]
    exact hzero _ (by decide)
  · have h1 : (16384 : Nat) = 16383 + 1 := rfl
    rw [h1, xorWords_add, hzero 16383 (by decide)]
    unfold legacyTailImage
    rw [List.drop_append_of_le_length (by rw [List.length_replicate]),
      List.drop_replicate]
    decide

/-- C4: erase law.  For an open slot with any prior file content and an address adr whose
erase block of 8448 bytes, starting at the position Seek resolves for adr, lies inside the
file, on a host whose seeks succeed and whose write stores the whole block: EraseBlock
reports success, and a following Read of size bytes at adr, 0 < size <= 8448, reports
success and delivers size bytes that are all 0xFF. -/
theorem EraseBlock_then_Read (mc : FileMemoryCard) (slot : Fin 8) (adr size : Nat)
    (dest : List Nat)
    (ho : (mc.m_file slot).IsOpened = true) (hs : (mc.m_file slot).seekOk = true)
    (hw : sizeof_effeffs ≤ (mc.m_file slot).wcap)
    (hin : seekTarget (mc.m_file slot).Length adr + 8448 ≤ (mc.m_file slot).Length)
    (h0 : 0 < size) (h1 : size ≤ 8448) :
    (mc.EraseBlock slot adr).1 = 1 ∧
    ((mc.EraseBlock slot adr).2.Read slot dest adr size).1 = 1 ∧
    (((mc.EraseBlock slot adr).2.Read slot dest adr size).2.1.take size
      = List.replicate size 0xFF) := by
  have ho' : (mc.m_file slot).opened = true := ho
  have hmin : min sizeof_effeffs (mc.m_file slot).wcap = sizeof_effeffs := Nat.min_eq_left hw
  have hsz : sizeof_effeffs = 8448 := by decide
  have hin' : seekTarget (mc.m_file slot).Length adr + m_effeffs.length
      ≤ (mc.m_file slot).data.length := by
    rw [m_effeffs_length, hsz]; exact hin
  have htake : m_effeffs.take sizeof_effeffs = m_effeffs := by
    rw [← m_effeffs_length]; exact List.take_length _
  rw [EraseBlock_ok mc slot adr ho' hs, hmin, htake]
  have hlen : m_effeffs.length = 8448 := by rw [m_effeffs_length, hsz]
  have hrep : ∀ k, k ≤ 8448 → m_effeffs.take k = List.replicate k 0xFF := by
    intro k hk
    unfold m_effeffs
    rw [List.take_replicate, hsz, Nat.min_eq_left hk]
  simp only [wxFFile.Length] at hin'
  generalize m_effeffs = E at hin' hlen hrep ⊢
  refine ⟨by simp [hsz], ?_⟩
  rw [Read_ok _ slot dest adr size (by simpa using ho') (by simpa using hs)]
  simp only [Function.update_same, wxFFile.Length, writeAt_length _ _ _ hin']
  have hreg := region_writeAt (mc.m_file slot).data E
    (seekTarget (mc.m_file slot).data.length adr) hin'
  have hgot : ((wxFFile.writeAt (mc.m_file slot).data
        (seekTarget (mc.m_file slot).data.length adr) E).drop
        (seekTarget (mc.m_file slot).data.length adr)).take size = List.replicate size 0xFF := by
    have h2 : size ≤ E.length := by rw [hlen]; exact h1
    have := congrArg (List.take size) hreg
    rw [List.take_take, Nat.min_eq_left h2] at this
    rw [this]
    exact hrep size h1
  rw [hgot]
  constructor
  · simp; omega
  · simp [overlay]

/-- Witness for C4: a card of 8448 zero bytes, erased at address 0 and read back. -/
theorem EraseBlock_then_Read_witness :
    (0 < 4 ∧ 4 ≤ 8448) ∧
    ((singleCard (hostFile (List.replicate 8448 0) 8448) false 0 []).EraseBlock 0 0).1 = 1 ∧
    (((singleCard (hostFile (List.replicate 8448 0) 8448) false 0 []).EraseBlock 0 0).2.Read 0
      [1, 2, 3, 4] 0 4).1 = 1 ∧
    ((((singleCard (hostFile (List.replicate 8448 0) 8448) false 0 []).EraseBlock 0 0).2.Read 0
      [1, 2, 3, 4] 0 4).2.1.take 4 = List.replicate 4 0xFF) :=
  ⟨by decide,
    EraseBlock_then_Read (singleCard (hostFile (List.replicate 8448 0) 8448) false 0 []) 0 0 4
      [1, 2, 3, 4] rfl rfl (Nat.le_refl 8448)
      (by
        show seekTarget (List.replicate 8448 0).length 0 + 8448 ≤ (List.replicate 8448 0).length
        rw [List.length_replicate]
        decide)
      (by decide) (by decide)⟩

/-- C5: for every port in {0,1} and subslot in {0,1,2,3} the value of FileMcd_ConvertToSlot
is a logical slot below 8, distinct pairs give distinct slots, for subslot 0 the slot is the
port and is not a multitap slot, for subslot 1, 2, 3 the slot is a multitap slot whose
FileMcd_GetMtapPort is the port and whose FileMcd_GetMtapSlot is the subslot; and every
logical slot 0..7 is the image of exactly one such pair. -/
theorem FileMcd_ConvertToSlot_bijective_roundtrip :
    (∀ port : Fin 2, ∀ subslot : Fin 4,
      FileMcd_ConvertToSlot port subslot < 8 ∧
      (∀ port2 : Fin 2, ∀ subslot2 : Fin 4,
        FileMcd_ConvertToSlot port2 subslot2 = FileMcd_ConvertToSlot port subslot →
          port2 = port ∧ subslot2 = subslot) ∧
      (subslot.val = 0 →
        FileMcd_ConvertToSlot port subslot = port ∧
        FileMcd_IsMultitapSlot (FileMcd_ConvertToSlot port subslot) = false) ∧
      (subslot.val ≠ 0 →
        FileMcd_IsMultitapSlot (FileMcd_ConvertToSlot port subslot) = true ∧
        FileMcd_GetMtapPort (FileMcd_ConvertToSlot port subslot) = some port.val ∧
        FileMcd_GetMtapSlot (FileMcd_ConvertToSlot port subslot) = some subslot.val)) ∧
    (∀ s : Fin 8, ∃ port : Fin 2, ∃ subslot : Fin 4,
      FileMcd_ConvertToSlot port subslot = s ∧
      ∀ port2 : Fin 2, ∀ subslot2 : Fin 4,
        FileMcd_ConvertToSlot port2 subslot2 = s → port2 = port ∧ subslot2 = subslot) ∧
    (FileMcd_ConvertToSlot 0 2 = 3 ∧ FileMcd_GetMtapPort 3 = some 0 ∧
      FileMcd_GetMtapSlot 3 = some 2) := by
  decide

/-- C6, as stated, fails: the pair (port 0, subslot 7) is mapped to 8, and the pair
(port 8, subslot 0) is mapped to 8, which is not an index of an 8-element array. -/
theorem FileMcd_ConvertToSlot_out_of_bounds :
    FileMcd_ConvertToSlot 0 7 = 8 ∧ FileMcd_ConvertToSlot 8 0 = 8 ∧
    ¬ (∀ port subslot : Nat, port < 2 ^ 32 → subslot < 2 ^ 32 →
        FileMcd_ConvertToSlot port subslot < 8) := by
  refine ⟨by decide, by decide, fun h => ?_⟩
  have h8 := h 0 7 (by norm_num) (by norm_num)
  revert h8
  decide

/-- C6, amended: for every port in {0,1} and subslot in {0..3} the value of
FileMcd_ConvertToSlot is below 8; outside that domain the function applies the same three
branches without a range check. -/
theorem FileMcd_ConvertToSlot_lt_eight (port subslot : Nat) (hp : port ≤ 1) (hs : subslot ≤ 3) :
    FileMcd_ConvertToSlot port subslot < 8 := by
  unfold FileMcd_ConvertToSlot U32_MOD
  split_ifs <;> omega

/-- Witness for C6: the pair (port 1, subslot 3). -/
theorem FileMcd_ConvertToSlot_lt_eight_witness :
    (1 ≤ 1 ∧ 3 ≤ 3) ∧ FileMcd_ConvertToSlot 1 3 < 8 :=
  ⟨by decide, FileMcd_ConvertToSlot_lt_eight 1 3 (by decide) (by decide)⟩

/-- C7, as stated, fails: on a host whose write stores only 3 of the 8 bytes handed to it,
Save on an open standard-format slot returns 1; the file afterwards holds the 3 stored
bytes followed by the old content. -/
theorem Save_short_write_reports_success :
    (((Seek ((singleCard (hostFile (List.replicate 16 0xFF) 3) false 0 []).m_file 0) 0).2.Write
      (List.replicate 8 0) 8).1 = 3) ∧
    ((singleCard (hostFile (List.replicate 16 0xFF) 3) false 0 []).Save 0
      (List.replicate 8 0) 0 8).1 = 1 ∧
    (((singleCard (hostFile (List.replicate 16 0xFF) 3) false 0 []).Save 0
      (List.replicate 8 0) 0 8).2.m_file 0).data = [0, 0, 0] ++ List.replicate 13 0xFF := by
  decide

/-- C7, amended: on an open slot whose seeks succeed, the final write-back of Save stores
min size wcap bytes, and Save returns 0 when that number is zero and 1 when it is not
zero; so Save returns 1 whenever all size > 0 bytes were written, and returns 0 only when
no byte was stored. -/
theorem Save_status_nonzero_only (mc : FileMemoryCard) (slot : Fin 8) (src : List Nat)
    (adr size : Nat)
    (ho : (mc.m_file slot).IsOpened = true) (hs : (mc.m_file slot).seekOk = true) :
    (∀ buf : List Nat,
      ((Seek (mc.m_file slot) adr).2.Write buf size).1 = min size (mc.m_file slot).wcap) ∧
    (mc.Save slot src adr size).1 = if min size (mc.m_file slot).wcap = 0 then 0 else 1 := by
  have ho' : (mc.m_file slot).opened = true := ho
  constructor
  · intro buf
    simp [Seek_ok, wxFFile.Write, ho', hs]
  · cases hpsx : mc.m_ispsx slot
    · rw [Save_std_ok mc slot src adr size ho' hs hpsx]
      by_cases h : min size (mc.m_file slot).wcap = 0 <;> simp [h]
    · rw [Save_psx_ok mc slot src adr size ho' hs hpsx]
      by_cases h : min size (mc.m_file slot).wcap = 0 <;> simp [h]

/-- Witness for C7: a Save of two bytes on a host that stores up to three bytes. -/
theorem Save_status_nonzero_only_witness :
    (((singleCard (hostFile (List.replicate 16 0xFF) 3) false 0 []).m_file 0).IsOpened = true ∧
     ((singleCard (hostFile (List.replicate 16 0xFF) 3) false 0 []).m_file 0).seekOk = true) ∧
    ((singleCard (hostFile (List.replicate 16 0xFF) 3) false 0 []).Save 0 [1, 2] 4 2).1 =
      if min 2 ((singleCard (hostFile (List.replicate 16 0xFF) 3) false 0 []).m_file 0).wcap = 0
        then 0 else 1 :=
  ⟨by decide,
    (Save_status_nonzero_only (singleCard (hostFile (List.replicate 16 0xFF) 3) false 0 []) 0
      [1, 2] 4 2 (by decide) (by decide)).2⟩

/-- C8, as stated, fails: the product MC2_MBSIZE * sizeInMB is a 32-bit unsigned product,
so for sizeInMB = 3972 it wraps to 0x20000 and Create, with every write complete, returns
true and leaves a file of 15 * 8448 = 126720 bytes, not of 3972 * 1081344 bytes. -/
theorem Create_wraps_u32 :
    (Create true 8448 3972).1 = true ∧
    (Create true 8448 3972).2.data.length = 126720 ∧
    126720 ≠ 3972 * 1081344 := by
  rw [Create_ok 8448 3972 (by decide)]
  refine ⟨rfl, ?_, by decide⟩
  show (List.replicate (createChunks 3972 * sizeof_effeffs) 0xFF).length = 126720
  rw [List.length_replicate]
  decide

/-- C8, amended: on a host that opens the file and stores every chunk completely, for every
sizeInMB whose product MC2_MBSIZE * sizeInMB is below 2^32 (sizeInMB up to 3971), Create
returns true and leaves a file of exactly sizeInMB * 1081344 bytes, each of them 0xFF.  For
sizeInMB = 8 the file has 8650752 bytes, Open marks it as not legacy-format, Seek resolves
it with offset zero, and on a card holding that file a Read of any region inside the file
delivers only 0xFF bytes. -/
theorem Create_fills_card (wcap : Nat) (hw : sizeof_effeffs ≤ wcap) :
    (∀ sizeInMB : Nat, MC2_MBSIZE * sizeInMB < 2 ^ 32 →
      (Create true wcap sizeInMB).1 = true ∧
      (Create true wcap sizeInMB).2.Length = sizeInMB * 1081344 ∧
      (Create true wcap sizeInMB).2.data = List.replicate (sizeInMB * 1081344) 0xFF) ∧
    ((Create true wcap 8).2.Length = 8650752 ∧
      (∀ (mc : FileMemoryCard) (slot : Fin 8) (f : wxFFile), f.IsOpened = true →
        f.data = (Create true wcap 8).2.data → (OpenSlot mc slot f).m_ispsx slot = false) ∧
      seekOffset (Create true wcap 8).2.Length = 0 ∧
      (∀ (mc : FileMemoryCard) (slot : Fin 8) (dest : List Nat) (adr size : Nat),
        (mc.m_file slot).IsOpened = true → (mc.m_file slot).seekOk = true →
        (mc.m_file slot).data = (Create true wcap 8).2.data →
        adr + size ≤ 8650752 →
          (mc.Read slot dest adr size).2.1.take size = List.replicate size 0xFF)) := by
  have hgen : ∀ sizeInMB : Nat, MC2_MBSIZE * sizeInMB < 2 ^ 32 →
      Create true wcap sizeInMB =
        (true, { wxFFile.openWB true wcap with
                  data := List.replicate (sizeInMB * 1081344) 0xFF,
                  pos := sizeInMB * 1081344 }) := by
    intro sizeInMB h
    rw [Create_ok wcap sizeInMB hw, createChunks_small sizeInMB h]
  have h8 := hgen 8 (by decide)
  have hdata : (Create true wcap 8).2.data = List.replicate 8650752 0xFF := by
    rw [h8]
  have hlen : (Create true wcap 8).2.Length = 8650752 := by
    rw [wxFFile.Length, hdata, List.length_replicate]
  refine ⟨?_, hlen, ?_, ?_, ?_⟩
  · intro sizeInMB h
    rw [hgen sizeInMB h]
    exact ⟨rfl, List.length_replicate _ _, rfl⟩
  · intro mc slot f ho hf
    rw [OpenSlot_ispsx mc slot f ho, wxFFile.Length, hf, hdata, List.length_replicate]
    decide
  · rw [hlen]
    decide
  · intro mc slot dest adr size ho hs hf hin
    have hL : (mc.m_file slot).Length = 8650752 := by
      rw [wxFFile.Length, hf, hdata, List.length_replicate]
    have hp : seekTarget (mc.m_file slot).Length adr = adr := by
      rw [hL]
      have hoff : seekOffset 8650752 = 0 := by decide
      unfold seekTarget U32_MOD
      rw [hoff, Nat.add_zero]
      exact Nat.mod_eq_of_lt (by omega)
    rw [Read_ok mc slot dest adr size ho hs, hp, hf, hdata, region_replicate _ _ _ _ hin]
    unfold overlay
    rw [List.take_left' (List.length_replicate _ _)]

/-- Witness for C8: the card of 8 megabytes that Open creates. -/
theorem Create_fills_card_witness :
    sizeof_effeffs ≤ 8448 ∧
    MC2_MBSIZE * 8 < 2 ^ 32 ∧
    ((Create true 8448 8).1 = true ∧
      (Create true 8448 8).2.Length = 8 * 1081344 ∧
      (Create true 8448 8).2.data = List.replicate (8 * 1081344) 0xFF) :=
  ⟨by decide, by decide, (Create_fills_card 8448 (by decide)).1 8 (by decide)⟩

/-- C9: disabled-slot transparency.  For a slot whose file is not open and every address,
size, source and destination buffer: Read returns 1, leaves the state as it is and fills the
first size destination bytes with 0; Save returns 1 and EraseBlock returns 1, both leaving
the whole state (file contents, checksums, scratch buffer) unchanged; GetCRC returns 0. -/
theorem closed_slot_transparent (mc : FileMemoryCard) (slot : Fin 8) (adr size : Nat)
    (src dest : List Nat) (hc : (mc.m_file slot).IsOpened = false) :
    (mc.Read slot dest adr size).1 = 1 ∧
    ((mc.Read slot dest adr size).2.1.take size = List.replicate size 0) ∧
    (mc.Read slot dest adr size).2.2 = mc ∧
    mc.Save slot src adr size = (1, mc) ∧
    mc.EraseBlock slot adr = (1, mc) ∧
    mc.GetCRC slot = (0, mc) := by
  simp [Read, Save, EraseBlock, GetCRC, hc, memsetZero]

/-- Witness for C9: the closed slot 3 of a card whose slot 0 is open. -/
theorem closed_slot_transparent_witness :
    ((singleCard (hostFile [7, 7] 64) false 5 []).m_file 3).IsOpened = false ∧
    ((singleCard (hostFile [7, 7] 64) false 5 []).Read 3 [9, 9, 9] 0 2).1 = 1 ∧
    (((singleCard (hostFile [7, 7] 64) false 5 []).Read 3 [9, 9, 9] 0 2).2.1.take 2
      = List.replicate 2 0) ∧
    ((singleCard (hostFile [7, 7] 64) false 5 []).Read 3 [9, 9, 9] 0 2).2.2
      = singleCard (hostFile [7, 7] 64) false 5 [] ∧
    (singleCard (hostFile [7, 7] 64) false 5 []).Save 3 [1, 2] 0 2
      = (1, singleCard (hostFile [7, 7] 64) false 5 []) ∧
    (singleCard (hostFile [7, 7] 64) false 5 []).EraseBlock 3 0
      = (1, singleCard (hostFile [7, 7] 64) false 5 []) ∧
    (singleCard (hostFile [7, 7] 64) false 5 []).GetCRC 3
      = (0, singleCard (hostFile [7, 7] 64) false 5 []) :=
  ⟨by decide,
    closed_slot_transparent (singleCard (hostFile [7, 7] 64) false 5 []) 3 0 2 [1, 2] [9, 9, 9]
      (by decide)⟩

/-- C10, as stated, fails: the sum adr + offset is a u32 sum, so on a file of length
0x20000 + 64 the address 0xFFFFFFFF is positioned at 63 and not at 0xFFFFFFFF + 64; and the
length is truncated to u32 before it is compared, so a file of length 2^32 + 0x20000 + 64,
which is none of the two special lengths, is resolved with offset 64 and not 0. -/
theorem Seek_wraps_u32 :
    ((Seek (hostFile (List.replicate (0x20000 + 64) 0) 0) 0xFFFFFFFF).2.pos = 63 ∧
      63 ≠ 0xFFFFFFFF + 64) ∧
    ((2 ^ 32 + 0x20000 + 64 ≠ 0x20000 + 64 ∧ 2 ^ 32 + 0x20000 + 64 ≠ 0x20000 + 3904) ∧
      (Seek (hostFile (List.replicate (2 ^ 32 + 0x20000 + 64) 0) 0) 0).2.pos = 64 ∧
      64 ≠ 0 + 0) := by
  refine ⟨⟨?_, by norm_num⟩, by norm_num, ?_, by norm_num⟩
  · rw [Seek_hostFile_pos, List.length_replicate]
    decide
  · rw [Seek_hostFile_pos, List.length_replicate]
    decide

/-- C10, amended: for every opened file of length L and every address adr, a successful
Seek positions the file at (adr + off) mod 2^32, where off is 64 if L mod 2^32 = 0x20000 + 64,
3904 if L mod 2^32 = 0x20000 + 3904, and 0 otherwise; in particular for L < 2^32 and
adr + 3904 < 2^32 the position is adr + off(L) with off(L) = 64 for L = 0x20000 + 64,
3904 for L = 0x20000 + 3904 and 0 for every other length. -/
theorem Seek_position (f : wxFFile) (adr : Nat)
    (ho : f.IsOpened = true) (hs : f.seekOk = true) :
    (Seek f adr).1 = true ∧
    (Seek f adr).2.pos =
      (adr + (if f.Length % 2 ^ 32 = 0x20000 + 64 then 64
              else if f.Length % 2 ^ 32 = 0x20000 + 3904 then 3904 else 0)) % 2 ^ 32 ∧
    (f.Length < 2 ^ 32 → adr + 3904 < 2 ^ 32 →
      (Seek f adr).2.pos =
        adr + (if f.Length = 0x20000 + 64 then 64
               else if f.Length = 0x20000 + 3904 then 3904 else 0)) := by
  have ho' : f.opened = true := ho
  rw [Seek_ok f adr ho' hs]
  refine ⟨rfl, ?_, ?_⟩
  · simp only [seekTarget, seekOffset, MCD_SIZE, U32_MOD]
  · intro hL hadr
    simp only [seekTarget, seekOffset, MCD_SIZE, U32_MOD, Nat.mod_eq_of_lt hL]
    norm_num
    split_ifs <;> omega

/-- Witness for C10: a file of 7 bytes and the address 5. -/
theorem Seek_position_witness :
    ((hostFile (List.replicate 7 0) 0).IsOpened = true ∧
      (hostFile (List.replicate 7 0) 0).seekOk = true ∧
      (hostFile (List.replicate 7 0) 0).Length < 2 ^ 32 ∧ 5 + 3904 < 2 ^ 32) ∧
    (Seek (hostFile (List.replicate 7 0) 0) 5).1 = true ∧
    (Seek (hostFile (List.replicate 7 0) 0) 5).2.pos =
      (5 + (if (hostFile (List.replicate 7 0) 0).Length % 2 ^ 32 = 0x20000 + 64 then 64
            else if (hostFile (List.replicate 7 0) 0).Length % 2 ^ 32 = 0x20000 + 3904 then 3904
            else 0)) % 2 ^ 32 ∧
    (Seek (hostFile (List.replicate 7 0) 0) 5).2.pos =
      5 + (if (hostFile (List.replicate 7 0) 0).Length = 0x20000 + 64 then 64
           else if (hostFile (List.replicate 7 0) 0).Length = 0x20000 + 3904 then 3904 else 0) :=
  ⟨by decide,
    (Seek_position (hostFile (List.replicate 7 0) 0) 5 (by decide) (by decide)).1,
    (Seek_position (hostFile (List.replicate 7 0) 0) 5 (by decide) (by decide)).2.1,
    (Seek_position (hostFile (List.replicate 7 0) 0) 5 (by decide) (by decide)).2.2
      (by decide) (by decide)⟩

/-- C11 fails on the code.  After Open of two cards, the two histories save different bytes
to the card in slot 1 and leave the file object and the checksum of slot 0 as Open left
them.  The same Save of eight 0xFF bytes at address 0 to the card in slot 0, whose file
ends after four bytes, then ends with different file contents and different checksums: the
four bytes behind the end of the file are the bytes 5..8 of the last buffer saved to the
other card. -/
theorem Save_past_end_depends_on_history :
    ((historyA.m_file 0 = historyB.m_file 0 ∧ historyA.m_chksum 0 = historyB.m_chksum 0) ∧
      (historyA.m_file 0).IsOpened = true ∧
      historyA.m_ispsx 0 = false ∧ historyB.m_ispsx 0 = false ∧
      (historyA.m_file 0).data = [0xFF, 0xFF, 0xFF, 0xFF]) ∧
    (((historyA.Save 0 (List.replicate 8 0xFF) 0 8).2.m_file 0).data
        = [0xFF, 0xFF, 0xFF, 0xFF, 0x05, 0x06, 0x07, 0x08] ∧
      ((historyB.Save 0 (List.replicate 8 0xFF) 0 8).2.m_file 0).data
        = [0xFF, 0xFF, 0xFF, 0xFF, 0x55, 0x66, 0x77, 0x88]) ∧
    ((historyA.Save 0 (List.replicate 8 0xFF) 0 8).2.m_chksum 0 = 0x08070605FFFFFFFF ∧
      (historyB.Save 0 (List.replicate 8 0xFF) 0 8).2.m_chksum 0 = 0x88776655FFFFFFFF) := by
  decide

/-- C12: Open/Close round trip.  For every card image that opens successfully and is
legacy-format (length 0x20000) or standard-format of length at least 0x218, Open followed
by Close leaves every byte, and so the length, of the backing file unchanged.  Open marks
the card as legacy-format exactly when its length is 0x20000, and whenever Close is going to
write (standard-format, positioning succeeds) m_chkaddr is 0x210 and the eight bytes of
m_chksum are the eight bytes Open loaded from offset 0x210. -/
theorem Open_Close_roundtrip (mc : FileMemoryCard) (host : Fin 8 → Option wxFFile)
    (slot : Fin 8) (f : wxFFile)
    (hhost : host slot = some f) (ho : f.IsOpened = true)
    (hbytes : ∀ b ∈ f.data, b < 256)
    (hlen : f.Length = 0x20000 ∨ 0x218 ≤ f.Length) :
    (((mc.Open host).Close).m_file slot).data = f.data ∧
    (((mc.Open host).Close).m_file slot).Length = f.Length ∧
    (mc.Open host).m_ispsx slot = decide (f.Length = 0x20000) ∧
    (((mc.Open host).m_file slot).IsOpened = true → (mc.Open host).m_ispsx slot = false →
      ((mc.Open host).m_file slot).seekOk = true →
        (mc.Open host).m_chkaddr = 0x210 ∧
        bytesOfU64 ((mc.Open host).m_chksum slot) = (f.data.drop 0x210).take 8) := by
  have hk := mc_Open_keeps mc host slot f hhost ho hbytes hlen
  have hc := Close_fold_keeps slot f.data allSlots (mc.Open host) hk
  have hdata : (((mc.Open host).Close).m_file slot).data = f.data := hc.1
  refine ⟨hdata, ?_, mc_Open_ispsx mc host slot f hhost ho, ?_⟩
  · rw [wxFFile.Length, hdata, wxFFile.Length]
  · intro h1 h2 h3
    exact ⟨(hk.2 h1 h2 h3).1, (hk.2 h1 h2 h3).2.2⟩

/-- Witness for C12: a standard-format card of 0x218 bytes in slot 2, on a host whose write
stores all eight bytes. -/
theorem Open_Close_roundtrip_witness :
    (roundTripHost 2 = some (hostFile (List.replicate 0x218 0xAB) 8) ∧
      (hostFile (List.replicate 0x218 0xAB) 8).IsOpened = true) ∧
    (((newCard.Open roundTripHost).Close).m_file 2).data
      = (hostFile (List.replicate 0x218 0xAB) 8).data ∧
    (((newCard.Open roundTripHost).Close).m_file 2).Length
      = (hostFile (List.replicate 0x218 0xAB) 8).Length :=
  ⟨⟨rfl, rfl⟩,
    (Open_Close_roundtrip newCard roundTripHost 2 (hostFile (List.replicate 0x218 0xAB) 8)
      rfl rfl
      (fun b hb => by
        have hb2 : b ∈ List.replicate 0x218 0xAB := hb
        rw [List.eq_of_mem_replicate hb2]
        decide)
      (Or.inr (by rw [hostFile_Length, List.length_replicate]))).1,
    (Open_Close_roundtrip newCard roundTripHost 2 (hostFile (List.replicate 0x218 0xAB) 8)
      rfl rfl
      (fun b hb => by
        have hb2 : b ∈ List.replicate 0x218 0xAB := hb
        rw [List.eq_of_mem_replicate hb2]
        decide)
      (Or.inr (by rw [hostFile_Length, List.length_replicate]))).2.1⟩

end MemoryCardFile
